import Mathlib

/-!
# Verification of the domo-ph identity reconciliation & onboarding engine

Shallow embedding of the signup / identity-reconciliation code:

* `signup-user-edge-function.ts` — the `handle-signup` edge function
  (normalizers, invite-token handling, password signup flow, the
  `link_existing_user` branch, `migratePendingUserHouseholdMembers`);
* `validate-mobile-number-edge-function.ts` — the mobile-availability check;
* the `handle_new_user` PL/pgSQL trigger (`src/unnamed/part_000`) — pending-user
  detection and migration, automatic household creation, staff-invite update.

JavaScript strings are modelled as `List Char` (`JSStr`); the ASCII fragment of
`trim` / `toLowerCase` / the regexes used by the code is modelled exactly.
Database tables are lists of records in storage (insertion) order; SQL
`SELECT ... LIMIT 1` without `ORDER BY` is modelled as the first matching row
in storage order, and `ORDER BY created_at DESC LIMIT 1` as the stored row with
the greatest `created_at`.  `maybeSingle()` errors when more than one row
matches; those error outcomes are modelled explicitly.

Fields never observed by any claim (display names, auth-method/provider
bookkeeping, timestamps other than `created_at`) are omitted from the row
types; every field a claim mentions is carried through faithfully.
-/

namespace Domo

/-- JavaScript string, modelled as its list of characters. -/
abbrev JSStr := List Char

/-- Whitespace recognized by JS `trim` and `\s` (ASCII fragment). -/
def isWS (c : Char) : Bool :=
  c == ' ' || c == '\t' || c == '\n' || c == '\r' || c == '\x0b' || c == '\x0c'

/-- Characters removed by `.replace(/[\s-]/g, '')`: whitespace or hyphen. -/
def isWSH (c : Char) : Bool := isWS c || c == '-'

/-- JS `String.prototype.trim`: drop leading and trailing whitespace. -/
def jsTrim (s : JSStr) : JSStr :=
  ((s.dropWhile isWS).reverse.dropWhile isWS).reverse

/-- `.replace(/[\s-]/g, '')`: remove every whitespace and hyphen character. -/
def stripSpacesHyphens (s : JSStr) : JSStr := s.filter (fun c => !isWSH c)

/-- `\d` of the JS regexes: an ASCII decimal digit. -/
def isDigitChar (c : Char) : Bool := '0' ≤ c && c ≤ '9'

/-- The test `/^0\d{10}$/.test v`: 11 characters, a leading `0`,
then ten digits. -/
def isPHLocal (v : JSStr) : Bool :=
  match v with
  | '0' :: rest => rest.length == 10 && rest.all isDigitChar
  | _ => false

/-- JS `toLowerCase` on the ASCII fragment; `Char.toLower` maps exactly
`A`–`Z` to `a`–`z` and fixes everything else. -/
def jsToLower (s : JSStr) : JSStr := s.map Char.toLower

/-- `normalizePhone` from `signup-user-edge-function.ts` (lines 76–89):
`null`/`undefined`/`""` are falsy and yield `null`; otherwise trim, strip
spaces and hyphens, rewrite a leading `00` to `+`, then rewrite an
11-digit string starting with `0` to `+63` form, else pass through. -/
def normalizePhone (value : Option JSStr) : Option JSStr :=
  match value with
  | none => none
  | some s =>
    if s = [] then none
    else
      let v0 := stripSpacesHyphens (jsTrim s)
      let v1 := if v0.take 2 = ['0', '0'] then '+' :: v0.drop 2 else v0
      let v2 := if isPHLocal v1 then '+' :: '6' :: '3' :: v1.drop 1 else v1
      some v2

/-- `normalizeEmail` from `signup-user-edge-function.ts` (lines 73–74):
`(value || '').trim().toLowerCase() || null`. -/
def normalizeEmail (value : Option JSStr) : Option JSStr :=
  if jsToLower (jsTrim (value.getD [])) = [] then none
  else some (jsToLower (jsTrim (value.getD [])))

/-- The spec's description of `normalizeMobile` (§4.1 / claim C3), written as
stated: trims and strips internal spaces and hyphens; a leading `00`
international prefix becomes `+`; an 11-digit string beginning with `0`
becomes the `+63` country-coded form; otherwise the value passes through;
empty or absent input yields null. -/
def normalizeMobileSpec (value : Option JSStr) : Option JSStr :=
  match value with
  | none => none
  | some s =>
    if s = [] then none
    else
      let t := stripSpacesHyphens (jsTrim s)
      if t.take 2 = ['0', '0'] then some ('+' :: t.drop 2)
      else if isPHLocal t then some ('+' :: '6' :: '3' :: t.drop 1)
      else some t

/-- JS truthiness of a `string | null` value: `null` and `""` are falsy. -/
def strTruthy (s : Option JSStr) : Bool :=
  match s with
  | none => false
  | some t => t ≠ []

/-- `a || b` on JS strings: `b` when `a` is null or empty. -/
def strOrElse (a : Option JSStr) (b : JSStr) : JSStr :=
  match a with
  | none => b
  | some s => if s = [] then b else s

/-- `.replace(/\D/g, '')`: keep only the decimal digits. -/
def jsDigitsOnly (s : JSStr) : JSStr := s.filter isDigitChar

/-- The constant suffix of the synthetic auth email, `"@domo.ph"`. -/
def domoSuffix : JSStr := ("@domo.ph").data

/-- The fallback auth email `"noreply@domo.ph"`. -/
def noreplyEmail : JSStr := ("noreply@domo.ph").data

/-- The auth-store email synthesized by the password signup flow
(`signup-user-edge-function.ts` line 559):
`normalizedEmail || (normalizedMobile ? digits(normalizedMobile)+"@domo.ph"
: "noreply@domo.ph")`. -/
def authEmailFor (normalizedEmail normalizedMobile : Option JSStr) : JSStr :=
  strOrElse normalizedEmail
    (match normalizedMobile with
     | some m =>
       if m = [] then noreplyEmail
       else jsDigitsOnly m ++ domoSuffix
     | none => noreplyEmail)

end Domo

namespace Domo

/-! ## Data model

Tables are lists of rows in storage (insertion) order.  `BEGIN … EXCEPTION`
blocks of PL/pgSQL run in subtransactions: an exception caught by a handler
rolls the block's store changes back, so a "block raised" event is modelled
as the block leaving the database unchanged before its handler runs. -/

/-- Row of `public.users`.  Display-name fields and provider bookkeeping are
not observed by any claim and are omitted. -/
structure UserRow where
  id : Nat
  authid : Option Nat
  email : Option JSStr
  mobile_no : Option JSStr
  role : JSStr
  specific_role : Option JSStr
  household : Option Nat
  user_color : Option JSStr
  is_pending_signup : Bool
  created_at : Nat
deriving DecidableEq

/-- Row of `public.staff_invite` (the invitation-grant ledger). -/
structure InviteRow where
  id : Nat
  email : Option JSStr
  mobile : Option JSStr
  role : Option JSStr
  household_id : Option Nat
  status : JSStr
  user_id : Option Nat
  created_at : Nat
deriving DecidableEq

/-- Row of `public.households`. -/
structure HouseholdRow where
  id : Nat
  owner_id : Nat
  join_code : JSStr
deriving DecidableEq

/-- Row of `public.household_members`. -/
structure MemberRow where
  household_id : Nat
  user_id : Nat
deriving DecidableEq

/-- An identity of the external auth store (`auth.users`), keyed by email. -/
structure AuthUser where
  id : Nat
  email : JSStr
deriving DecidableEq

/-- The shared store.  `user_colors` and `join_codes` model the randomness
consumed by `handle_new_user` (the next random color, the stream of join-code
candidates the `LOOP` will draw); `now` models `NOW()`. -/
structure DB where
  users : List UserRow
  staff_invite : List InviteRow
  households : List HouseholdRow
  household_members : List MemberRow
  user_colors : List JSStr
  join_codes : List JSStr
  auth_users : List AuthUser
  now : Nat
deriving DecidableEq

def statusNew : JSStr := ("new").data

def statusDone : JSStr := ("done").data

def roleAmo : JSStr := ("amo").data

def roleKasambahay : JSStr := ("kasambahay").data

/-- `SELECT 1 FROM household_members WHERE household_id = h AND user_id = u`. -/
def memberExists (ms : List MemberRow) (h u : Nat) : Bool :=
  ms.any (fun m => m.household_id == h && m.user_id == u)

/-- The membership-assignment step (`handle_new_user` lines 633–643, and the
edge function's existence-check-then-insert): insert `(h, u)` into
`household_members` only when no such row exists. -/
def ensureMember (ms : List MemberRow) (h u : Nat) : List MemberRow :=
  if memberExists ms h u then ms else ms ++ [⟨h, u⟩]

def memberCount (ms : List MemberRow) (h u : Nat) : Nat :=
  ms.countP (fun m => m.household_id == h && m.user_id == u)

/-- Update every `users` row with the given id. -/
def updateUserById (users : List UserRow) (uid : Nat) (f : UserRow → UserRow) :
    List UserRow :=
  users.map (fun u => if u.id = uid then f u else u)

end Domo

namespace Domo

/-! ## validate-mobile-number edge function -/

/-- Response of `validate-mobile-number`: HTTP status plus the `is_valid`
field of the JSON body when present. -/
structure MobileCheckResp where
  status : Nat
  is_valid : Option Bool
deriving DecidableEq

/-- The ownership test of `validate-mobile-number-edge-function.ts`
(lines 78–84): `mobile_no` equals the normalized number, `authid` is not
null, and `is_pending_signup` is false. -/
def settledOwner (nm : JSStr) (u : UserRow) : Bool :=
  u.mobile_no == some nm && u.authid.isSome && !u.is_pending_signup

/-- `validate-mobile-number-edge-function.ts` (lines 58–125): 400 on a falsy
or unnormalizable number; then a `maybeSingle()` lookup for a settled owner —
error (500) when several rows match, 409 with `is_valid: false` when one
does, 200 with `is_valid: true` when none does. -/
def validateMobileNumber (users : List UserRow) (mobile_number : Option JSStr) :
    MobileCheckResp :=
  if !(strTruthy mobile_number) then ⟨400, none⟩
  else
    match normalizePhone mobile_number with
    | none => ⟨400, none⟩
    | some nm =>
      if nm = [] then ⟨400, none⟩
      else
        match users.filter (settledOwner nm) with
        | [] => ⟨200, some true⟩
        | [_] => ⟨409, some false⟩
        | _ :: _ :: _ => ⟨500, none⟩

end Domo

namespace Domo

/-! ## handle_new_user: lookups and household provisioning -/

/-- Modelled from the spec: the SQL function `normalize_phone_number` is not
among the sources (only its call sites in `handle_new_user` are); §4.1 of
the spec describes a single Normalizer component, so the `normalizeMobile`
rules stand in for it. -/
def normalize_phone_number (x : Option JSStr) : Option JSStr := normalizePhone x

/-- SQL `LOWER(TRIM(e))` on a nullable column (ASCII fragment). -/
def sqlLowerTrim (x : Option JSStr) : Option JSStr :=
  x.map (fun e => jsToLower (jsTrim e))

/-- Email clause of the pending-user lookup (`handle_new_user` lines
209–238): `LOWER(TRIM(email)) = normalized_email AND is_pending_signup AND
authid IS NULL`. -/
def pendingByEmail (ne : JSStr) (u : UserRow) : Bool :=
  sqlLowerTrim u.email == some ne && u.is_pending_signup && u.authid == none

/-- Phone clause of the pending-user lookup (`handle_new_user` lines
241–270): `normalize_phone_number(mobile_no) = normalized_phone AND
is_pending_signup AND authid IS NULL`. -/
def pendingByPhone (np : JSStr) (u : UserRow) : Bool :=
  normalize_phone_number u.mobile_no == some np && u.is_pending_signup &&
    u.authid == none

/-- Pending-user lookup of `handle_new_user`: by normalized email first
(when present), else by normalized phone.  Each query is `LIMIT 1` with no
`ORDER BY`, modelled as the first matching row in storage order. -/
def findPendingUser (users : List UserRow) (ne np : Option JSStr) :
    Option UserRow :=
  match (match ne with
         | some e => users.find? (pendingByEmail e)
         | none => none) with
  | some u => some u
  | none =>
    match np with
    | some p => users.find? (pendingByPhone p)
    | none => none

/-- One round of the join-code `LOOP` of `handle_new_user` (lines 611–614),
indexed by the attempt number: draw the next candidate from the modelled
randomness stream and exit as soon as it does not collide with an existing
household's join code.  `none` means every modelled candidate collided and
the (unbounded) loop is still running. -/
def generateJoinCodeAux : List JSStr → List HouseholdRow → Nat →
    Option (Nat × JSStr)
  | [], _, _ => none
  | c :: rest, hs, n =>
    if hs.any (fun h => h.join_code == c) then
      generateJoinCodeAux rest hs (n + 1)
    else some (n, c)

/-- The join-code generation loop, returning (attempts used, accepted code). -/
def generateJoinCode (codes : List JSStr) (hs : List HouseholdRow) :
    Option (Nat × JSStr) :=
  generateJoinCodeAux codes hs 1

/-- A fresh `households.id` for an insert. -/
def freshHouseholdId (db : DB) : Nat :=
  (db.households.map (fun h => h.id)).foldr max 0 + 1

/-- Automatic household creation for amo users (`handle_new_user` lines
584–654): skipped when the user row is missing, the role is not `amo`, a
household is already set, or a staff invite was found.  The creating block
is wrapped in `BEGIN … EXCEPTION WHEN OTHERS` — `blockRaise = true` models
an exception anywhere inside it: the subtransaction is rolled back and the
error merely logged, so the store is unchanged.  A `generateJoinCode`
outcome of `none` means the collision loop is still running within the
modelled randomness; no claim depends on that situation and it leaves the
store unchanged here. -/
def autoHouseholdCreation (db : DB) (uid : Nat) (hasInvite : Bool)
    (blockRaise : Bool) : DB :=
  match db.users.find? (fun u => u.id == uid) with
  | none => db
  | some u =>
    if u.role ≠ roleAmo then db
    else if u.household.isSome then db
    else if hasInvite then db
    else if blockRaise then db
    else
      match generateJoinCode db.join_codes db.households with
      | none => db
      | some (_, code) =>
        let hid := freshHouseholdId db
        { db with
          households := db.households ++ [⟨hid, u.id, code⟩],
          users := updateUserById db.users u.id
            (fun v => { v with household := some hid }),
          household_members := ensureMember db.household_members hid u.id }

/-! Demonstration rows for concrete witnesses and counterexamples. -/

/-- A pending placeholder user holding `+639171234567` (no auth identity). -/
def demoPendingHolder : UserRow :=
  ⟨1, none, none, some (("+639171234567").data), roleAmo, none, none, none,
    true, 0⟩

/-- An older pending row matching `maria@x.ph` (created at time 1,
stored first). -/
def cexPendingOld : UserRow :=
  ⟨11, none, some (("maria@x.ph").data), none, roleAmo, none, none, none,
    true, 1⟩

/-- A more recently created pending row matching the same email
(created at time 9, stored second). -/
def cexPendingNew : UserRow :=
  ⟨12, none, some (("maria@x.ph").data), none, roleAmo, none, none, none,
    true, 9⟩

/-- Thirteen join-code candidates: twelve that collide with
`cexHouseholds` below, then a fresh one. -/
def cexJoinCodes : List JSStr :=
  [("AAAAA1").data, ("AAAAA2").data, ("AAAAA3").data, ("AAAAA4").data,
   ("AAAAA5").data, ("AAAAA6").data, ("AAAAA7").data, ("AAAAA8").data,
   ("AAAAA9").data, ("AAAAB1").data, ("AAAAB2").data, ("AAAAB3").data,
   ("ZZZZZZ").data]

/-- Twelve existing households occupying the first twelve candidates. -/
def cexHouseholds : List HouseholdRow :=
  [⟨1, 1, ("AAAAA1").data⟩, ⟨2, 1, ("AAAAA2").data⟩, ⟨3, 1, ("AAAAA3").data⟩,
   ⟨4, 1, ("AAAAA4").data⟩, ⟨5, 1, ("AAAAA5").data⟩, ⟨6, 1, ("AAAAA6").data⟩,
   ⟨7, 1, ("AAAAA7").data⟩, ⟨8, 1, ("AAAAA8").data⟩, ⟨9, 1, ("AAAAA9").data⟩,
   ⟨10, 1, ("AAAAB1").data⟩, ⟨11, 1, ("AAAAB2").data⟩,
   ⟨12, 1, ("AAAAB3").data⟩]

end Domo

namespace Domo

/-! ## The handle_new_user trigger (src/unnamed/part_000)

The trigger runs synchronously inside external-identity creation.  Its three
`BEGIN … EXCEPTION` blocks (pending-user migration, household creation,
staff-invite update) are modelled with one boolean failure injection each:
`true` means an exception was raised somewhere inside the block, the
subtransaction was rolled back and the handler ran. -/

/-- The `NEW` record of the trigger: the freshly created auth user.
`meta_mobile_no` stands for `COALESCE(raw_user_meta_data->>'phone',
raw_user_meta_data->>'mobile_no')`. -/
structure AuthNew where
  id : Nat
  email : Option JSStr
  phone : Option JSStr
  meta_role : Option JSStr
  meta_mobile_no : Option JSStr
deriving DecidableEq

/-- The fallback color `'#FF5733'` used when `user_colors` is empty. -/
def defaultColor : JSStr := ("#FF5733").data

/-- The placeholder email `'temp-<id>@temp-migration.domo.ph'` written onto a
pending row to clear a uniqueness conflict during migration. -/
def tempMigEmail (n : Nat) : JSStr :=
  ("temp-").data ++ (Nat.repr n).data ++ ("@temp-migration.domo.ph").data

/-- JS `a || b` on nullable strings: `b` whenever `a` is null or empty. -/
def jsOr (a b : Option JSStr) : Option JSStr := if strTruthy a then a else b

/-- JS `a || null`. -/
def optTruthy (a : Option JSStr) : Option JSStr := if strTruthy a then a else none

/-- `ORDER BY created_at DESC LIMIT 1`: the stored row with the greatest
`created_at` (the earlier-stored row on ties, which SQL leaves open). -/
def latestCreated : List InviteRow → Option InviteRow
  | [] => none
  | r :: rs =>
    match latestCreated rs with
    | none => some r
    | some s => if s.created_at > r.created_at then some s else some r

/-- `normalize_phone_number(mobile) = np AND status = 'new'`. -/
def inviteByPhoneNew (np : JSStr) (i : InviteRow) : Bool :=
  normalize_phone_number i.mobile == some np && i.status == statusNew

/-- `LOWER(TRIM(email)) = ne AND status = 'new'`. -/
def inviteByEmailNew (ne : JSStr) (i : InviteRow) : Bool :=
  sqlLowerTrim i.email == some ne && i.status == statusNew

/-- `normalize_phone_number(mobile) = np AND status IN ('new','done')`
(the mobile-preference refinement). -/
def inviteByPhoneAny (np : JSStr) (i : InviteRow) : Bool :=
  normalize_phone_number i.mobile == some np &&
    (i.status == statusNew || i.status == statusDone)

/-- Staff-invite lookup of the trigger (part_000 lines 120–186): by
normalized phone first (when present and nonempty); else by normalized
email, in which case a second lookup by phone over `new`-or-`done` grants
replaces (or refreshes) the record when it finds one. -/
def triggerInviteLookup (invites : List InviteRow)
    (normalized_phone normalized_email : Option JSStr) : Option InviteRow :=
  let byPhone := match normalized_phone with
    | some np =>
      if np ≠ [] then latestCreated (invites.filter (inviteByPhoneNew np))
      else none
    | none => none
  match byPhone with
  | some r => some r
  | none =>
    match normalized_email with
    | none => none
    | some ne =>
      match latestCreated (invites.filter (inviteByEmailNew ne)) with
      | none => none
      | some r =>
        match normalized_phone with
        | some np =>
          if np ≠ [] then
            match latestCreated (invites.filter (inviteByPhoneAny np)) with
            | some m => some m
            | none => some r
          else some r
        | none => some r

/-- The value `COALESCE(user_phone, CASE WHEN backup nonnull and nonempty
THEN normalize_phone_number(backup) ELSE NULL END)` used for the migrated
row's `mobile_no`. -/
def migMobileVal (user_phone backup : Option JSStr) : Option JSStr :=
  user_phone <|> (if strTruthy backup then normalize_phone_number backup else none)

/-- Success path of the pending-user migration block (part_000 lines
276–451): clear the pending row's mobile (guarded), clear its email to a
placeholder on a conflict (by id), upsert the canonical row, re-point FK
references (the `migrate_pending_user_to_authenticated` RPC — modelled from
the spec §4.4 step 4, `household_members` being the FK table carried in this
model), delete the pending row behind the same guard used to find it, and
re-apply the final metadata update. -/
def migrationSuccess (db : DB) (pend : UserRow) (nu : AuthNew)
    (user_phone : Option JSStr) (user_role : JSStr) : DB :=
  let color := pend.user_color.getD (db.user_colors.head?.getD defaultColor)
  let u1 := db.users.map (fun u =>
    if u.id = pend.id ∧ u.is_pending_signup = true ∧ u.authid = none
    then { u with mobile_no := none } else u)
  let u2 := if nu.email.isSome && (sqlLowerTrim pend.email == sqlLowerTrim nu.email)
    then u1.map (fun u =>
      if u.id = pend.id then { u with email := some (tempMigEmail pend.id) } else u)
    else u1
  let u3 := if u2.any (fun u => u.id == nu.id)
    then u2.map (fun u => if u.id = nu.id then
      { u with email := (nu.email <|> pend.email) <|> u.email,
               mobile_no := migMobileVal user_phone pend.mobile_no <|> u.mobile_no,
               authid := some nu.id, is_pending_signup := false } else u)
    else u2 ++ [⟨nu.id, some nu.id, nu.email <|> pend.email,
                migMobileVal user_phone pend.mobile_no, user_role, none,
                pend.household, some color, false, db.now⟩]
  let ms1 := db.household_members.map (fun m =>
    if m.user_id = pend.id then { m with user_id := nu.id } else m)
  let u4 := u3.filter (fun u =>
    ¬ (u.id = pend.id ∧ u.is_pending_signup = true ∧ u.authid = none))
  let u5 := u4.map (fun u => if u.id = nu.id then
    { u with email := nu.email <|> u.email,
             mobile_no := migMobileVal user_phone pend.mobile_no,
             role := user_role } else u)
  { db with users := u5, household_members := ms1 }

/-- Handler of the migration block (part_000 lines 453–479): the
subtransaction is already rolled back; restore the snapshotted mobile and
email onto the pending row, each only when its snapshot was non-null
(best-effort — a missing row is simply not updated).  The two conditional
id-targeted `UPDATE`s are written as one row map: a row with the pending
id receives each snapshot value exactly when that snapshot is non-null. -/
def migrationRestore (db : DB) (pend : UserRow) : DB :=
  { db with users := db.users.map (fun u =>
      if u.id = pend.id then
        { u with
          mobile_no := match pend.mobile_no with
                       | some b => some b
                       | none => u.mobile_no,
          email := match pend.email with
                   | some b => some b
                   | none => u.email }
      else u) }

/-- Plain profile creation (part_000 lines 487–577): insert the canonical
row, `ON CONFLICT (id) DO UPDATE` coalescing into the existing row. -/
def plainCreation (db : DB) (nu : AuthNew) (user_phone : Option JSStr)
    (user_role : JSStr) : DB :=
  let color := db.user_colors.head?.getD defaultColor
  if db.users.any (fun u => u.id == nu.id) then
    { db with users := db.users.map (fun u => if u.id = nu.id then
        { u with mobile_no := user_phone <|> u.mobile_no,
                 email := nu.email <|> u.email,
                 role := user_role,
                 is_pending_signup := false } else u) }
  else
    { db with users := db.users ++ [⟨nu.id, some nu.id, nu.email, user_phone,
        user_role, none, none, some color, false, db.now⟩] }

/-- Staff-invite update section of the trigger (part_000 lines 661–730):
mark the found grant `done` (only if still `new`), always stamp its
`user_id`, assign the grant's household to the user when the user has none,
and ensure the membership row.  The block's handler swallows and rolls
back (`blockRaise`). -/
def staffInviteUpdateSection (db : DB) (nu : AuthNew) (inv : InviteRow)
    (blockRaise : Bool) : DB :=
  if blockRaise then db
  else
    match db.users.find? (fun u => u.id == nu.id) with
    | none => db
    | some user_record =>
      let invites1 := db.staff_invite.map (fun i => if i.id = inv.id then
        { i with status := if i.status = statusNew then statusDone else i.status,
                 user_id := some (i.user_id.getD user_record.id) } else i)
      match inv.household_id with
      | none => { db with staff_invite := invites1 }
      | some hh =>
        let users1 := if user_record.household = none
          then updateUserById db.users user_record.id
            (fun u => { u with household := some hh })
          else db.users
        { db with staff_invite := invites1, users := users1,
                  household_members := ensureMember db.household_members hh
                    user_record.id }

/-- `COALESCE(NEW.phone, meta phone, meta mobile_no)` before normalization. -/
def trigRawPhone (nu : AuthNew) : Option JSStr := nu.phone <|> nu.meta_mobile_no

/-- `normalized_phone` of the trigger: set only when the raw phone is
non-null and nonempty. -/
def trigNormPhone (nu : AuthNew) : Option JSStr :=
  if strTruthy (trigRawPhone nu) then normalize_phone_number (trigRawPhone nu)
  else none

/-- `user_phone` of the trigger: normalized in place when non-null and
nonempty, otherwise left as read. -/
def trigUserPhone (nu : AuthNew) : Option JSStr :=
  if strTruthy (trigRawPhone nu) then normalize_phone_number (trigRawPhone nu)
  else trigRawPhone nu

/-- `normalized_email` of the trigger: set only when `NEW.email` is
non-null and nonempty. -/
def trigNormEmail (nu : AuthNew) : Option JSStr :=
  if strTruthy nu.email then sqlLowerTrim nu.email else none

/-- The staff invite the trigger resolves for `NEW`. -/
def trigInvite (db : DB) (nu : AuthNew) : Option InviteRow :=
  triggerInviteLookup db.staff_invite (trigNormPhone nu) (trigNormEmail nu)

/-- The trigger's resolved role: `kasambahay` when an invite was found,
else the metadata role, else `'amo'`. -/
def trigRole (db : DB) (nu : AuthNew) : JSStr :=
  match trigInvite db nu with
  | some _ => roleKasambahay
  | none => nu.meta_role.getD roleAmo

/-- The `handle_new_user` trigger (part_000 lines 6–749), as run inside
external-identity creation.  Failure injections: `migRaise`, `hhRaise`,
`invRaise` raise inside the migration / household-creation / invite-update
blocks respectively (each caught, rolled back and swallowed by its
handler).  The outer `EXCEPTION WHEN OTHERS` returns `NEW` regardless, so
the trigger is total. -/
def handleNewUser (db : DB) (nu : AuthNew) (migRaise hhRaise invRaise : Bool) :
    DB :=
  let db2 := match findPendingUser db.users (trigNormEmail nu) (trigNormPhone nu) with
    | some pend =>
      if migRaise then
        plainCreation (migrationRestore db pend) nu (trigUserPhone nu)
          (trigRole db nu)
      else migrationSuccess db pend nu (trigUserPhone nu) (trigRole db nu)
    | none => plainCreation db nu (trigUserPhone nu) (trigRole db nu)
  let db3 := autoHouseholdCreation db2 nu.id (trigInvite db nu).isSome hhRaise
  match trigInvite db nu with
  | some inv => staffInviteUpdateSection db3 nu inv invRaise
  | none => db3

end Domo

namespace Domo

/-! ## The handle-signup edge function (signup-user-edge-function.ts) -/

/-- A signup request (password flow / link flow fields). -/
structure SignupReq where
  email : Option JSStr
  password : Option JSStr
  mobile_no : Option JSStr
  full_name : Option JSStr
  invite_token : Option Nat
  link_existing_user : Bool
deriving DecidableEq

/-- HTTP status and the `role` reported on success. -/
structure SignupResp where
  status : Nat
  role : Option JSStr
deriving DecidableEq

/-- Modelled from the spec (§4.2): the RPC `validate_invite_token` is not
among the sources (only its call sites are).  Read-only: it returns the
grant's current data for a valid (still-`new`) token and fails otherwise,
with no side effect. -/
def validate_invite_token (invites : List InviteRow) (t : Nat) :
    Option InviteRow :=
  match invites.find? (fun i => i.id == t) with
  | none => none
  | some i => if i.status = statusNew then some i else none

/-- Modelled from the spec (§4.2): the RPC `consume_invite_token` is not
among the sources.  It atomically transitions `new → done` gated on the
current status being `new`; a grant that is missing or already consumed is
a failure and nothing changes. -/
def consume_invite_token (db : DB) (t : Nat) : Option InviteRow × DB :=
  match db.staff_invite.find? (fun i => i.id == t) with
  | none => (none, db)
  | some i =>
    if i.status = statusNew then
      (some i, { db with staff_invite := db.staff_invite.map (fun j =>
        if j.id = t then { j with status := statusDone } else j) })
    else (none, db)

/-- `migratePendingUserHouseholdMembers` (signup-user-edge-function.ts
lines 19–54): fetch the pending user's membership rows; if there are none,
return at once; otherwise copy each to the new user when absent
(existence-check-then-insert) and finally delete all of the pending user's
rows. -/
def migratePendingUserHouseholdMembers (ms : List MemberRow) (p nid : Nat) :
    List MemberRow :=
  let pm := ms.filter (fun m => m.user_id == p)
  if pm = [] then ms
  else
    let ms1 := pm.foldl (fun acc row => ensureMember acc row.household_id nid) ms
    ms1.filter (fun m => ¬ m.user_id = p)

/-- Token-based reconciliation, duplicated verbatim in the link flow
(lines 189–220), the OAuth flow (505–536) and the password flow (735–766):
inherit the pending user's color, call the FK-migration RPC
(`migrate_pending_user_to_authenticated` — modelled from the spec §4.4
step 4; `household_members` is the FK table carried in this model), migrate
membership rows, and delete the placeholder row by id. -/
def reconcilePendingUser (db : DB) (p nid : Nat) : DB :=
  let pcolor := match db.users.find? (fun u => u.id == p) with
    | some pu => pu.user_color
    | none => none
  let ms1 := db.household_members.map (fun m =>
    if m.user_id = p then { m with user_id := nid } else m)
  let ms2 := migratePendingUserHouseholdMembers ms1 p nid
  let us1 := match pcolor with
    | some c => updateUserById db.users nid (fun u => { u with user_color := some c })
    | none => db.users
  { db with users := us1.filter (fun u => ¬ u.id = p), household_members := ms2 }

/-- The `link_existing_user` ("Ako 'yan!") branch (lines 126–237).  `none`
means the branch's gate (`link_existing_user && inviteToken && contact`)
did not fire.  The branch **consumes** the invite token first; only then
does it look the user up (`maybeSingle` by normalized email, else by
normalized mobile — a miss or a multi-row error yields 404).  The
membership insert for a null grant household is rejected by the store and
is modelled as a skip. -/
def linkExistingUser (db : DB) (req : SignupReq) : Option (SignupResp × DB) :=
  let ne := normalizeEmail req.email
  let nm := normalizePhone req.mobile_no
  match req.invite_token with
  | none => none
  | some t =>
    if ¬ req.link_existing_user then none
    else if ¬ (strTruthy ne ∨ strTruthy nm) then none
    else
      match consume_invite_token db t with
      | (none, db1) => some (⟨400, none⟩, db1)
      | (some inv, db1) =>
        match (if strTruthy ne
               then db1.users.filter (fun u => u.email == ne)
               else db1.users.filter (fun u => u.mobile_no == nm)) with
        | [row] =>
          let us2 := updateUserById db1.users row.id (fun u =>
            { u with household := inv.household_id,
                     specific_role := optTruthy inv.role,
                     role := roleKasambahay })
          let db2 := { db1 with users := us2 }
          let db3 := match inv.household_id with
            | some hh =>
              { db2 with
                household_members := ensureMember db2.household_members hh row.id }
            | none => db2
          let db4 := match inv.user_id with
            | some p => reconcilePendingUser db3 p row.id
            | none => db3
          some (⟨201, some roleKasambahay⟩, db4)
        | _ => some (⟨404, none⟩, db1)

/-- Fallback staff-invite lookup by mobile (lines 324–336):
`or(mobile.eq.<normalized>, mobile.eq.<raw>)` over `status = 'new'`,
`maybeSingle` — zero rows or a multi-row error both leave it unfound. -/
def inviteFallbackMobile (invites : List InviteRow) (nmv : JSStr)
    (raw : Option JSStr) : Option InviteRow :=
  match invites.filter (fun i =>
      (i.mobile == some nmv ||
        (match raw with | some r => i.mobile == some r | none => false)) &&
      i.status == statusNew) with
  | [i] => some i
  | _ => none

/-- Fallback staff-invite lookup by email (lines 339–351). -/
def inviteFallbackEmail (invites : List InviteRow) (nev : JSStr)
    (raw : Option JSStr) : Option InviteRow :=
  match invites.filter (fun i =>
      (i.email == some nev ||
        (match raw with | some r => i.email == some r | none => false)) &&
      i.status == statusNew) with
  | [i] => some i
  | _ => none

/-- The invite resolution of the password flow (lines 257–352): validate
the token read-only when present, else fall back to contact matching by
mobile then email. -/
def edgeInviteLookup (db : DB) (req : SignupReq) (nm ne : Option JSStr) :
    Option InviteRow :=
  match (match req.invite_token with
         | some t => validate_invite_token db.staff_invite t
         | none => none) with
  | some i => some i
  | none =>
    match (if strTruthy nm
           then inviteFallbackMobile db.staff_invite (nm.getD []) req.mobile_no
           else none) with
    | some i => some i
    | none =>
      if strTruthy ne
      then inviteFallbackEmail db.staff_invite (ne.getD []) req.email
      else none

/-- `userRole` of the password flow: `'amo'` by default, `'kasambahay'`
exactly when a staff invite was found (the request's `role` field is never
read on this path). -/
def edgeUserRole (invOpt : Option InviteRow) : JSStr :=
  match invOpt with
  | some _ => roleKasambahay
  | none => roleAmo

/-- A fresh identifier, larger than every id in the store. -/
def freshAuthId (db : DB) : Nat :=
  ((db.auth_users.map (fun a => a.id)) ++ (db.users.map (fun u => u.id)) ++
    db.users.filterMap (fun u => u.authid)).foldr max 0 + 1

/-- The staff-invite section of the password flow (lines 658–782): resolve
the pending back-reference (from the grant, else re-fetched from the
table); update the user's household / specific_role / role from the grant;
insert the membership row only when absent **and no pending back-reference
exists**; run token-based reconciliation when one does; finally mark the
grant `done` unless it already is.  A null grant household makes the
membership check match nothing and the null insert is rejected by the
store; both are modelled as a skip. -/
def edgeStaffInviteSection (db : DB) (uid : Nat) (inv : InviteRow) : DB :=
  let pendingUserId := match inv.user_id with
    | some p => some p
    | none =>
      match db.staff_invite.find? (fun i => i.id == inv.id) with
      | some row => row.user_id
      | none => none
  let userRowOpt := db.users.find? (fun u => u.authid == some uid)
  let db1 := match userRowOpt with
    | none => db
    | some userRow =>
      let usA := updateUserById db.users userRow.id (fun u =>
        { u with household := inv.household_id,
                 specific_role := optTruthy inv.role,
                 role := roleKasambahay })
      let dbA := { db with users := usA }
      match inv.household_id with
      | none => dbA
      | some hh =>
        if ¬ memberExists dbA.household_members hh userRow.id ∧
            pendingUserId = none then
          { dbA with household_members :=
              dbA.household_members ++ [⟨hh, userRow.id⟩] }
        else dbA
  let newUserId := match userRowOpt with
    | some u => some u.id
    | none => (db1.users.find? (fun u => u.authid == some uid)).map
        (fun u => u.id)
  let db2 := match pendingUserId, newUserId with
    | some p, some nid => reconcilePendingUser db1 p nid
    | _, _ => db1
  if inv.status ≠ statusDone then
    { db2 with staff_invite := db2.staff_invite.map (fun i =>
        if i.id = inv.id then { i with status := statusDone } else i) }
  else db2

/-- The user-row update the staff-invite section applies when the grant
carries household `H`: household, specific role from the grant, and the
`kasambahay` role. -/
def grantApply (inv : InviteRow) (H : Nat) (w : UserRow) : UserRow :=
  { w with household := some H, specific_role := optTruthy inv.role,
           role := roleKasambahay }

/-- Normalized email of the request. -/
def pwNormE (req : SignupReq) : Option JSStr := normalizeEmail req.email

/-- Normalized mobile of the request. -/
def pwNormM (req : SignupReq) : Option JSStr := normalizePhone req.mobile_no

/-- The synthesized auth-store email of the request. -/
def pwAuthEmail (req : SignupReq) : JSStr :=
  authEmailFor (pwNormE req) (pwNormM req)

/-- The invite the password flow resolves for the request. -/
def pwInvite (db : DB) (req : SignupReq) : Option InviteRow :=
  edgeInviteLookup db req (pwNormM req) (pwNormE req)

/-- The role the password flow resolves for the request. -/
def pwRole (db : DB) (req : SignupReq) : JSStr :=
  edgeUserRole (pwInvite db req)

/-- The auth `NEW` record `createUser` produces for the request: the
synthesized email, no phone, and the user metadata (role and
`normalizedMobile || mobile_no`). -/
def pwAuthNew (db : DB) (req : SignupReq) : AuthNew :=
  ⟨freshAuthId db, some (pwAuthEmail req), none, some (pwRole db req),
    jsOr (pwNormM req) req.mobile_no⟩

/-- Post-trigger profile step (lines 589–655): fetch the profile by auth
id; insert it manually when the trigger did not create it, else update
(the `mobile_no` key is dropped from the payload when
`normalizedMobile || mobile_no` is undefined). -/
def pwProfileUpsert (db2 : DB) (uid : Nat) (req : SignupReq)
    (userRole : JSStr) : DB :=
  match db2.users.find? (fun u => u.authid == some uid) with
  | none =>
    { db2 with users := db2.users ++ [⟨freshAuthId db2, some uid, pwNormE req,
        jsOr (pwNormM req) req.mobile_no, userRole, none, none, none, false,
        db2.now⟩] }
  | some existing =>
    { db2 with users := updateUserById db2.users existing.id (fun u =>
        { u with
          mobile_no := (match jsOr (pwNormM req) req.mobile_no with
                        | some v => some v
                        | none => u.mobile_no),
          role := userRole,
          email := jsOr (pwNormE req) u.email }) }

/-- The password signup flow (lines 241–795, non-OAuth): validate required
fields; resolve the invite (token validate first, contact fallback);
create the auth identity under the synthesized email — the
`handle_new_user` trigger runs inside that creation — then fetch the
profile by auth id (create it manually only if the trigger did not),
update it, run the staff-invite section when a grant applies, and return
201 with the resolved role. -/
def passwordSignup (db : DB) (req : SignupReq)
    (migRaise hhRaise invRaise : Bool) : SignupResp × DB :=
  if ¬ (strTruthy req.password ∧ strTruthy req.full_name) then (⟨400, none⟩, db)
  else if ¬ (strTruthy (pwNormM req) ∨ strTruthy (pwNormE req)) then
    (⟨400, none⟩, db)
  else if db.auth_users.any (fun a => a.email == pwAuthEmail req) then
    (⟨409, none⟩, db)
  else
    let uid := freshAuthId db
    let db2 := handleNewUser
      { db with auth_users := db.auth_users ++ [⟨uid, pwAuthEmail req⟩] }
      (pwAuthNew db req) migRaise hhRaise invRaise
    let db3 := pwProfileUpsert db2 uid req (pwRole db req)
    match pwInvite db req with
    | some inv => (⟨201, some (pwRole db req)⟩, edgeStaffInviteSection db3 uid inv)
    | none => (⟨201, some (pwRole db req)⟩, db3)

/-! Demonstration stores for the flow-level witnesses and counterexamples. -/

/-- A store holding one valid, unconsumed invite (token 1, household 5,
issued to a mobile number) and no users. -/
def cexLinkDB : DB :=
  { users := [],
    staff_invite := [⟨1, none, some (("+639000000001").data),
      some (("cook").data), some 5, statusNew, none, 0⟩],
    households := [⟨5, 9, ("AAAAA1").data⟩],
    household_members := [], user_colors := [], join_codes := [],
    auth_users := [], now := 3 }

/-- A `link_existing_user` request carrying token 1 and an email that
matches no user. -/
def cexLinkReq : SignupReq :=
  { email := some (("ana@x.ph").data), password := some (("pw").data),
    mobile_no := none, full_name := some (("Ana").data),
    invite_token := some 1, link_existing_user := true }

/-- A store for the C6 counterexample: a valid `new` invite (token 1,
household 5) carrying a pending back-reference to placeholder user 7, whose
contact differs from the signup's and who holds no membership rows. -/
def cexC6DB : DB :=
  { users := [⟨7, none, some (("pending@other.ph").data),
      some (("+639000000002").data), roleKasambahay, none, some 5, none,
      true, 1⟩],
    staff_invite := [⟨1, none, some (("+639000000001").data),
      some (("cook").data), some 5, statusNew, some 7, 0⟩],
    households := [⟨5, 9, ("AAAAA1").data⟩],
    household_members := [], user_colors := [], join_codes := [],
    auth_users := [], now := 4 }

/-- An email-only password signup carrying token 1. -/
def cexC6Req : SignupReq :=
  { email := some (("kas@x.com").data), password := some (("pw123").data),
    mobile_no := none, full_name := some (("Kas").data),
    invite_token := some 1, link_existing_user := false }

/-- A password signup carrying token 1 and the very mobile number the
invite was addressed to. -/
def cexC6SelfReq : SignupReq :=
  { email := none, password := some (("pw123").data),
    mobile_no := some (("+639000000001").data),
    full_name := some (("Kas").data),
    invite_token := some 1, link_existing_user := false }

/-- A store for the C6 amended witness: same invite but with no pending
back-reference. -/
def demoC6DB : DB :=
  { users := [],
    staff_invite := [⟨1, none, some (("+639000000001").data),
      some (("cook").data), some 5, statusNew, none, 0⟩],
    households := [⟨5, 9, ("AAAAA1").data⟩],
    household_members := [], user_colors := [], join_codes := [],
    auth_users := [], now := 4 }

/-- The grant of `demoC6DB`. -/
def demoC6Inv : InviteRow :=
  ⟨1, none, some (("+639000000001").data), some (("cook").data), some 5,
    statusNew, none, 0⟩

/-- The profile row the trigger's plain creation appends for the password
flow's fresh identity. -/
def pwTrigRow (db : DB) (req : SignupReq) : UserRow :=
  ⟨freshAuthId db, some (freshAuthId db), (pwAuthNew db req).email,
   trigUserPhone (pwAuthNew db req), (pwAuthNew db req).meta_role.getD roleAmo,
   none, none, some (db.user_colors.head?.getD defaultColor), false, db.now⟩

/-- That row after the flow's own profile update (lines 624–655): mobile
from `normalizedMobile || mobile_no` when set, the resolved role, the email
refreshed when the request carries one. -/
def pwProfRow (db : DB) (req : SignupReq) : UserRow :=
  { pwTrigRow db req with
    mobile_no := (match jsOr (pwNormM req) req.mobile_no with
                  | some v => some v
                  | none => (pwTrigRow db req).mobile_no),
    role := pwRole db req,
    email := jsOr (pwNormE req) ((pwTrigRow db req).email) }

/-- A store holding only the pending placeholder `cexPendingOld`. -/
def cexMigDB : DB :=
  { users := [cexPendingOld], staff_invite := [], households := [],
    household_members := [], user_colors := [], join_codes := [],
    auth_users := [], now := 5 }

/-- A fresh auth user whose email matches the pending placeholder. -/
def cexMigNew : AuthNew :=
  ⟨100, some (("maria@x.ph").data), none, some roleAmo, none⟩

/-- The user-row fields none of the post-creation trigger steps (household
creation, staff-invite update) may change: identity, contacts, pending
flag. -/
def sameCore (u w : UserRow) : Prop :=
  w.id = u.id ∧ w.authid = u.authid ∧ w.email = u.email ∧
  w.mobile_no = u.mobile_no ∧ w.is_pending_signup = u.is_pending_signup ∧
  w.role = u.role

end Domo

namespace Domo

/-! ## Facts about the normalizers -/

theorem normalizePhone_some (s : JSStr) :
    normalizePhone (some s) =
      if s = [] then none
      else
        some (let v0 := stripSpacesHyphens (jsTrim s)
              let v1 := if v0.take 2 = ['0', '0'] then '+' :: v0.drop 2 else v0
              if isPHLocal v1 then '+' :: '6' :: '3' :: v1.drop 1 else v1) := by
  by_cases h : s = [] <;> simp [normalizePhone, h]

theorem toLower_toLower (c : Char) :
    Char.toLower (Char.toLower c) = Char.toLower c := by
  unfold Char.toLower
  by_cases h : c.toNat ≥ 65 ∧ c.toNat ≤ 90
  · rw [if_pos h]
    have hv : (c.toNat + 32).isValidChar := by left; omega
    have he : (Char.ofNat (c.toNat + 32)).toNat = c.toNat + 32 := by
      unfold Char.ofNat
      rw [dif_pos hv]
      unfold Char.ofNatAux Char.toNat
      simp [UInt32.toNat, UInt32.ofNatCore]
    rw [if_neg]
    omega
  · rw [if_neg h, if_neg h]

/-- Characters above codepoint 32 are not in the modelled whitespace set. -/
theorem isWS_false_of_toNat {c : Char} (h : 32 < c.toNat) : isWS c = false := by
  have ne : ∀ x : Char, x.toNat ≤ 32 → (c == x) = false := by
    intro x hx
    apply beq_eq_false_iff_ne.mpr
    intro hEq
    subst hEq
    omega
  unfold isWS
  rw [ne ' ' (by decide), ne '\t' (by decide), ne '\n' (by decide),
      ne '\r' (by decide), ne '\x0b' (by decide), ne '\x0c' (by decide)]
  rfl

theorem toLower_isWS (c : Char) : isWS (Char.toLower c) = isWS c := by
  unfold Char.toLower
  by_cases h : c.toNat ≥ 65 ∧ c.toNat ≤ 90
  · rw [if_pos h]
    have hv : (c.toNat + 32).isValidChar := by left; omega
    have he : (Char.ofNat (c.toNat + 32)).toNat = c.toNat + 32 := by
      unfold Char.ofNat
      rw [dif_pos hv]
      unfold Char.ofNatAux Char.toNat
      simp [UInt32.toNat, UInt32.ofNatCore]
    rw [isWS_false_of_toNat (by omega), isWS_false_of_toNat (by omega)]
  · rw [if_neg h]

theorem dropWhile_eq_self_of_all {p : Char → Bool} {l : JSStr}
    (h : ∀ c ∈ l, p c = false) : l.dropWhile p = l := by
  cases l with
  | nil => rfl
  | cons x xs =>
    rw [List.dropWhile_cons, h x (by simp)]
    simp

theorem jsTrim_eq_self_of_noWS {l : JSStr} (h : ∀ c ∈ l, isWS c = false) :
    jsTrim l = l := by
  unfold jsTrim
  rw [dropWhile_eq_self_of_all h,
      dropWhile_eq_self_of_all (by intro c hc; exact h c (List.mem_reverse.mp hc)),
      List.reverse_reverse]

theorem strip_eq_self_of_noWSH {l : JSStr} (h : ∀ c ∈ l, isWSH c = false) :
    stripSpacesHyphens l = l := by
  unfold stripSpacesHyphens
  rw [List.filter_eq_self]
  intro c hc
  rw [h c hc]
  rfl

theorem mem_strip_noWSH {l : JSStr} {c : Char}
    (h : c ∈ stripSpacesHyphens l) : isWSH c = false := by
  unfold stripSpacesHyphens at h
  have := List.of_mem_filter h
  simpa using this

theorem isWS_of_isWSH_false {c : Char} (h : isWSH c = false) : isWS c = false := by
  unfold isWSH at h
  simp only [Bool.or_eq_false_iff] at h
  exact h.1

/-- Every character of a `normalizePhone` output is neither whitespace nor
a hyphen: the output is built from stripped characters plus `+`, `6`, `3`. -/
theorem normalizePhone_out_noWSH {x : Option JSStr} {v : JSStr}
    (h : normalizePhone x = some v) : ∀ c ∈ v, isWSH c = false := by
  cases x with
  | none => simp [normalizePhone] at h
  | some s =>
    rw [normalizePhone_some] at h
    by_cases hs : s = []
    · rw [if_pos hs] at h; exact absurd h (by simp)
    · rw [if_neg hs] at h
      simp only [Option.some.injEq] at h
      subst h
      intro c hc
      set w := stripSpacesHyphens (jsTrim s) with hw
      have base : ∀ d ∈ w, isWSH d = false := fun d hd => mem_strip_noWSH hd
      have plus : isWSH '+' = false := by decide
      have six : isWSH '6' = false := by decide
      have three : isWSH '3' = false := by decide
      by_cases h1 : w.take 2 = ['0', '0'] <;>
        simp only [h1, if_true, if_false, reduceIte] at hc
      · -- the `00 → +` branch fired; the PH branch then tests `'+' :: _`
        have hph : isPHLocal ('+' :: w.drop 2) = false := rfl
        rw [hph] at hc
        simp only [Bool.false_eq_true, if_false, reduceIte, List.mem_cons] at hc
        rcases hc with rfl | hc
        · exact plus
        · exact base c (List.mem_of_mem_drop hc)
      · by_cases h2 : isPHLocal w <;>
          simp only [h2, if_true, if_false, Bool.false_eq_true, reduceIte,
            List.mem_cons] at hc
        · rcases hc with rfl | rfl | rfl | hc
          · exact plus
          · exact six
          · exact three
          · exact base c (List.mem_of_mem_drop hc)
        · exact base c hc

/-- A `normalizePhone` output never starts with `00` and never matches the
PH-local pattern again: both rewrites leave a leading `+`, and the
pass-through case failed both tests already. -/
theorem normalizePhone_out_stable {x : Option JSStr} {v : JSStr}
    (h : normalizePhone x = some v) :
    v.take 2 ≠ ['0', '0'] ∧ isPHLocal v = false := by
  cases x with
  | none => simp [normalizePhone] at h
  | some s =>
    rw [normalizePhone_some] at h
    by_cases hs : s = []
    · rw [if_pos hs] at h; exact absurd h (by simp)
    · rw [if_neg hs] at h
      simp only [Option.some.injEq] at h
      subst h
      set w := stripSpacesHyphens (jsTrim s) with hw
      by_cases h1 : w.take 2 = ['0', '0'] <;>
        simp only [h1, if_true, if_false, reduceIte]
      · have hph : isPHLocal ('+' :: w.drop 2) = false := rfl
        rw [hph]
        simp only [Bool.false_eq_true, if_false, reduceIte]
        refine ⟨?_, hph⟩
        intro hcon
        cases hd : w.drop 2 with
        | nil => rw [hd] at hcon; simp at hcon
        | cons a as => rw [hd] at hcon; simp at hcon
      · by_cases h2 : isPHLocal w
        · rw [if_pos h2]
          exact ⟨by intro hcon; simp at hcon, rfl⟩
        · rw [if_neg h2]
          exact ⟨h1, Bool.eq_false_iff.mpr h2⟩

/-- Idempotence of `normalizePhone` away from the empty-output corner:
if the first application did not produce `""`, a second application is the
identity. -/
theorem normalizePhone_idem_of_ne_empty {x : Option JSStr}
    (h : normalizePhone x ≠ some []) :
    normalizePhone (normalizePhone x) = normalizePhone x := by
  cases hx : normalizePhone x with
  | none => rfl
  | some v =>
    have hv : v ≠ [] := by
      intro hcon
      exact h (by rw [hx, hcon])
    have noWSH := normalizePhone_out_noWSH hx
    have noWS : ∀ c ∈ v, isWS c = false :=
      fun c hc => isWS_of_isWSH_false (noWSH c hc)
    have hstable := normalizePhone_out_stable hx
    rw [normalizePhone_some, if_neg hv]
    rw [jsTrim_eq_self_of_noWS noWS, strip_eq_self_of_noWSH noWSH]
    simp only [hstable.1, hstable.2, if_false, Bool.false_eq_true, reduceIte]

theorem head_dropWhile {p : Char → Bool} (l : JSStr) :
    ∀ x ∈ (l.dropWhile p).head?, p x = false := by
  induction l with
  | nil => intro x hx; simp at hx
  | cons a as ih =>
    intro x hx
    rw [List.dropWhile_cons] at hx
    by_cases hp : p a
    · rw [if_pos hp] at hx
      exact ih x hx
    · rw [if_neg hp] at hx
      simp only [List.head?_cons, Option.mem_def, Option.some.injEq] at hx
      subst hx
      exact Bool.eq_false_iff.mpr hp

theorem dropWhile_eq_self_of_head {p : Char → Bool} {l : JSStr}
    (h : ∀ x ∈ l.head?, p x = false) : l.dropWhile p = l := by
  cases l with
  | nil => rfl
  | cons a as =>
    rw [List.dropWhile_cons, h a (by simp)]
    simp

theorem getLast?_dropWhile {p : Char → Bool} {l : JSStr}
    (h : l.dropWhile p ≠ []) : (l.dropWhile p).getLast? = l.getLast? := by
  induction l with
  | nil => simp at h
  | cons a as ih =>
    rw [List.dropWhile_cons] at h ⊢
    by_cases hp : p a
    · rw [if_pos hp] at h ⊢
      have has : as ≠ [] := by
        intro hcon
        rw [hcon] at h
        simp at h
      rw [ih h]
      cases as with
      | nil => exact absurd rfl has
      | cons b bs => rw [List.getLast?_cons_cons]
    · rw [if_neg hp] at h ⊢

/-- `jsTrim` is idempotent: a trimmed string has no leading or trailing
whitespace left. -/
theorem jsTrim_idem (l : JSStr) : jsTrim (jsTrim l) = jsTrim l := by
  set A := l.dropWhile isWS with hA
  set B := A.reverse.dropWhile isWS with hB
  have hu : jsTrim l = B.reverse := rfl
  by_cases hBnil : B = []
  · rw [hu, hBnil]
    rfl
  · -- head of the trimmed string is the last of `B`, which is the last of
    -- `A.reverse`, i.e. the head of `A`; all of these fail `isWS`.
    have hheadB : ∀ x ∈ B.head?, isWS x = false := head_dropWhile A.reverse
    have hheadu : ∀ x ∈ B.reverse.head?, isWS x = false := by
      intro x hx
      rw [List.head?_reverse] at hx
      rw [hB, getLast?_dropWhile (hB ▸ hBnil), List.getLast?_reverse] at hx
      exact head_dropWhile l x hx
    have h1 : B.reverse.dropWhile isWS = B.reverse :=
      dropWhile_eq_self_of_head hheadu
    have h2 : B.dropWhile isWS = B := dropWhile_eq_self_of_head hheadB
    rw [hu]
    show ((B.reverse.dropWhile isWS).reverse.dropWhile isWS).reverse = B.reverse
    rw [h1, List.reverse_reverse, h2]

/-- `jsTrim` commutes with `jsToLower` (lower-casing preserves
whitespace-ness of each character). -/
theorem jsTrim_jsToLower (l : JSStr) :
    jsTrim (jsToLower l) = jsToLower (jsTrim l) := by
  have hdw : ∀ m : JSStr, (m.map Char.toLower).dropWhile isWS =
      (m.dropWhile isWS).map Char.toLower := by
    intro m
    induction m with
    | nil => rfl
    | cons a as ih =>
      rw [List.map_cons, List.dropWhile_cons, List.dropWhile_cons, toLower_isWS]
      by_cases hp : isWS a
      · rw [if_pos hp, if_pos hp, ih]
      · rw [if_neg hp, if_neg hp, List.map_cons]
  unfold jsTrim jsToLower
  rw [hdw, ← List.map_reverse, hdw, ← List.map_reverse]

theorem jsToLower_idem (l : JSStr) : jsToLower (jsToLower l) = jsToLower l := by
  unfold jsToLower
  rw [List.map_map]
  exact List.map_congr_left (fun c _ => toLower_toLower c)

/-- `normalizeEmail` is idempotent for every string-or-null input. -/
theorem normalizeEmail_idem (x : Option JSStr) :
    normalizeEmail (normalizeEmail x) = normalizeEmail x := by
  have fix : ∀ u : JSStr,
      jsToLower (jsTrim (jsToLower (jsTrim u))) = jsToLower (jsTrim u) := by
    intro u
    rw [jsTrim_jsToLower, jsTrim_idem, jsToLower_idem]
  by_cases hnil : jsToLower (jsTrim (x.getD [])) = []
  · rw [show normalizeEmail x = none by unfold normalizeEmail; rw [if_pos hnil]]
    rfl
  · rw [show normalizeEmail x = some (jsToLower (jsTrim (x.getD []))) by
        unfold normalizeEmail; rw [if_neg hnil]]
    unfold normalizeEmail
    simp only [Option.getD_some]
    rw [fix, if_neg hnil]

theorem normalizeMobileSpec_some (s : JSStr) :
    normalizeMobileSpec (some s) =
      if s = [] then none
      else
        (let t := stripSpacesHyphens (jsTrim s)
         if t.take 2 = ['0', '0'] then some ('+' :: t.drop 2)
         else if isPHLocal t then some ('+' :: '6' :: '3' :: t.drop 1)
         else some t) := by
  by_cases h : s = [] <;> simp [normalizeMobileSpec, h]

/-! ## Claim theorems: normalizers -/

/-- C2 (counterexample): `normalizeMobile` is **not** idempotent on every
string-or-null input.  On the one-character string `"-"` the first
application returns the empty string `""` (the original value is truthy, the
stripped value is empty and passes through), while the second application
sees a falsy `""` and returns `null`. -/
theorem normalizePhone_idem_cex :
    normalizePhone (normalizePhone (some (("-").data))) ≠
      normalizePhone (some (("-").data)) := by
  decide

/-- C2 (amended): both normalizers are total pure functions of their input
(they are modelled as Lean functions, hence cannot throw and are
deterministic); `normalizeEmail` is idempotent for every string-or-null
input, and `normalizeMobile` is idempotent for every input except those
whose normalization is the empty string (nonempty strings consisting solely
of whitespace and hyphens), where the first application yields `""` and the
second `null`. -/
theorem normalizers_idem_amended (x : Option JSStr)
    (h : normalizePhone x ≠ some []) :
    normalizeEmail (normalizeEmail x) = normalizeEmail x ∧
    normalizePhone (normalizePhone x) = normalizePhone x :=
  ⟨normalizeEmail_idem x, normalizePhone_idem_of_ne_empty h⟩

theorem normalizers_idem_amended_witness :
    normalizePhone (some (("0917 123-4567").data)) ≠ some [] ∧
    normalizeEmail (normalizeEmail (some ((" A@B.c ").data))) =
      normalizeEmail (some ((" A@B.c ").data)) ∧
    normalizePhone (normalizePhone (some (("0917 123-4567").data))) =
      normalizePhone (some (("0917 123-4567").data)) := by
  refine ⟨by decide, ?_, ?_⟩
  · exact (normalizers_idem_amended (some ((" A@B.c ").data)) (by decide)).1
  · exact (normalizers_idem_amended (some (("0917 123-4567").data)) (by decide)).2

/-- C3 (confirmed): `normalizeMobile` agrees with the spec's description for
every input — read with the code's rule order, a leading `00` is rewritten
to `+` first and the 11-digit domestic rewrite applies otherwise; empty or
absent input yields null, and `09171234567` becomes `+639171234567`. -/
theorem normalizePhone_matches_spec :
    (∀ x, normalizePhone x = normalizeMobileSpec x) ∧
    normalizePhone (some (("09171234567").data)) =
      some (("+639171234567").data) ∧
    normalizePhone (some []) = none ∧ normalizePhone none = none := by
  refine ⟨?_, by decide, rfl, rfl⟩
  intro x
  cases x with
  | none => rfl
  | some s =>
    rw [normalizePhone_some, normalizeMobileSpec_some]
    by_cases hs : s = []
    · rw [if_pos hs, if_pos hs]
    · rw [if_neg hs, if_neg hs]
      set t := stripSpacesHyphens (jsTrim s) with ht
      by_cases h1 : t.take 2 = ['0', '0']
      · simp only [h1, if_true, reduceIte]
        have hph : isPHLocal ('+' :: t.drop 2) = false := rfl
        rw [hph]
        simp
      · simp only [h1, if_false, Bool.false_eq_true, reduceIte]
        by_cases h2 : isPHLocal t
        · rw [if_pos h2, if_pos h2]
        · rw [if_neg h2, if_neg h2]

/-- C10 (confirmed): in the password flow, with no (normalized) email and a
truthy normalized mobile, the auth identity's email is the normalized
mobile's digits followed by `"@domo.ph"`; consequently two distinct raw
mobiles whose normalizations agree on digits (e.g. `639171234567` and
`+639171234567`) collide on the same synthetic auth email. -/
theorem authEmail_synthetic_from_mobile
    (mobile m : JSStr)
    (hm : normalizePhone (some mobile) = some m) (hne : m ≠ []) :
    authEmailFor none (normalizePhone (some mobile)) =
      jsDigitsOnly m ++ domoSuffix ∧
    (("639171234567").data ≠ ("+639171234567").data ∧
      authEmailFor none (normalizePhone (some (("639171234567").data))) =
        authEmailFor none (normalizePhone (some (("+639171234567").data)))) := by
  refine ⟨?_, by decide, by decide⟩
  rw [hm]
  show (if m = [] then noreplyEmail else jsDigitsOnly m ++ domoSuffix) =
    jsDigitsOnly m ++ domoSuffix
  rw [if_neg hne]

theorem authEmail_synthetic_from_mobile_witness :
    authEmailFor none (normalizePhone (some (("0917-123-4567").data))) =
      jsDigitsOnly (("+639171234567").data) ++ domoSuffix := by
  exact (authEmail_synthetic_from_mobile (("0917-123-4567").data)
    ((("+639171234567").data)) (by decide) (by decide)).1

end Domo

namespace Domo

/-! ## Claim theorems: membership, mobile validation, pending lookup,
join codes -/

/-- C8 (confirmed): the membership-assignment step checks for an existing
`(household, user)` row and inserts only if absent; starting from a store
satisfying the pair-uniqueness invariant (at most one row for the pair),
two identical calls leave exactly one membership row for that pair. -/
theorem ensureMember_idempotent (ms : List MemberRow) (h u : Nat)
    (hle : memberCount ms h u ≤ 1) :
    memberCount (ensureMember (ensureMember ms h u) h u) h u = 1 := by
  by_cases hex : memberExists ms h u
  · unfold ensureMember
    rw [if_pos hex, if_pos hex]
    unfold memberExists at hex
    rw [List.any_eq_true] at hex
    obtain ⟨m, hm, hpm⟩ := hex
    have hpos : 0 < memberCount ms h u := List.countP_pos_iff.mpr ⟨m, hm, hpm⟩
    omega
  · unfold ensureMember
    rw [if_neg hex]
    have hex2 : memberExists (ms ++ [⟨h, u⟩]) h u = true := by
      unfold memberExists
      rw [List.any_append]
      simp
    rw [if_pos hex2]
    have h0 : memberCount ms h u = 0 := by
      unfold memberCount
      rw [List.countP_eq_zero]
      intro a ha hpa
      exact hex (List.any_eq_true.mpr ⟨a, ha, hpa⟩)
    unfold memberCount at h0 ⊢
    rw [List.countP_append, h0]
    simp

theorem ensureMember_idempotent_witness :
    memberCount (ensureMember (ensureMember [] 7 3) 7 3) 7 3 = 1 :=
  ensureMember_idempotent [] 7 3 (by decide)

/-- C9 (confirmed): under the documented uniqueness invariant (at most one
settled owner per normalized mobile), the endpoint reports the number
available (HTTP 200, `is_valid: true`) iff no users row holds the
normalized number with a non-null auth identity and
`is_pending_signup = false`; one settled owner yields 409 with
`is_valid: false`; rows that are pending or unbound (in particular a number
held only by a pending placeholder) do not block availability. -/
theorem validateMobile_available_iff (users : List UserRow) (raw nm : JSStr)
    (hn : normalizePhone (some raw) = some nm) (hne : nm ≠ [])
    (huniq : (users.filter (settledOwner nm)).length ≤ 1) :
    (validateMobileNumber users (some raw) = ⟨200, some true⟩ ↔
      ∀ u ∈ users, settledOwner nm u = false) ∧
    ((users.filter (settledOwner nm)).length = 1 →
      validateMobileNumber users (some raw) = ⟨409, some false⟩) ∧
    ((∀ u ∈ users, u.mobile_no = some nm →
        u.is_pending_signup = true ∨ u.authid = none) →
      validateMobileNumber users (some raw) = ⟨200, some true⟩) := by
  have hraw : raw ≠ [] := by
    intro hcon
    rw [hcon] at hn
    simp [normalizePhone] at hn
  have hres : validateMobileNumber users (some raw) =
      match users.filter (settledOwner nm) with
      | [] => ⟨200, some true⟩
      | [_] => ⟨409, some false⟩
      | _ :: _ :: _ => ⟨500, none⟩ := by
    unfold validateMobileNumber
    have ht : strTruthy (some raw) = true := by
      unfold strTruthy
      simpa using hraw
    rw [ht]
    simp only [Bool.not_true, Bool.false_eq_true, if_false, reduceIte]
    rw [hn]
    show (if nm = [] then (⟨400, none⟩ : MobileCheckResp)
          else match users.filter (settledOwner nm) with
               | [] => ⟨200, some true⟩
               | [_] => ⟨409, some false⟩
               | _ :: _ :: _ => ⟨500, none⟩) =
      match users.filter (settledOwner nm) with
      | [] => (⟨200, some true⟩ : MobileCheckResp)
      | [_] => ⟨409, some false⟩
      | _ :: _ :: _ => ⟨500, none⟩
    rw [if_neg hne]
  cases hf : users.filter (settledOwner nm) with
  | nil =>
    rw [hf] at hres
    refine ⟨?_, ?_, ?_⟩
    · rw [hres]
      simp only [true_iff]
      have := List.filter_eq_nil_iff.mp hf
      intro u hu
      simpa using this u hu
    · intro hlen
      simp at hlen
    · intro _
      exact hres
  | cons a as =>
    cases as with
    | nil =>
      rw [hf] at hres
      have ha : a ∈ users ∧ settledOwner nm a = true := by
        have : a ∈ users.filter (settledOwner nm) := by
          rw [hf]; simp
        exact ⟨List.mem_of_mem_filter this, List.of_mem_filter this⟩
      refine ⟨?_, fun _ => hres, ?_⟩
      · rw [hres]
        constructor
        · intro hcon
          simp at hcon
        · intro hall
          have := hall a ha.1
          rw [ha.2] at this
          simp at this
      · intro hall
        have hmob : a.mobile_no = some nm := by
          have := ha.2
          unfold settledOwner at this
          simp only [Bool.and_eq_true, beq_iff_eq] at this
          exact this.1.1
        rcases hall a ha.1 hmob with hp | hn2
        · have := ha.2
          unfold settledOwner at this
          simp [hp] at this
        · have := ha.2
          unfold settledOwner at this
          simp [hn2] at this
    | cons b bs =>
      rw [hf] at huniq
      simp at huniq

theorem validateMobile_available_iff_witness :
    (validateMobileNumber [demoPendingHolder]
        (some (("09171234567").data)) = ⟨200, some true⟩ ↔
      ∀ u ∈ [demoPendingHolder],
        settledOwner (("+639171234567").data) u = false) ∧
    (([demoPendingHolder].filter
        (settledOwner (("+639171234567").data))).length = 1 →
      validateMobileNumber [demoPendingHolder]
        (some (("09171234567").data)) = ⟨409, some false⟩) ∧
    ((∀ u ∈ [demoPendingHolder],
        u.mobile_no = some (("+639171234567").data) →
        u.is_pending_signup = true ∨ u.authid = none) →
      validateMobileNumber [demoPendingHolder]
        (some (("09171234567").data)) = ⟨200, some true⟩) :=
  validateMobile_available_iff [demoPendingHolder]
    (("09171234567").data) (("+639171234567").data)
    (by decide) (by decide) (by decide)

/-- C4 (counterexample): when two pending rows match the same normalized
email, the `LIMIT 1` lookup (which has no `ORDER BY`) returns the first row
in storage order — here the **older** one — not the most recently created
matching row as the claim states. -/
theorem findPendingUser_not_most_recent_cex :
    findPendingUser [cexPendingOld, cexPendingNew]
        (some (("maria@x.ph").data)) none = some cexPendingOld ∧
    pendingByEmail (("maria@x.ph").data) cexPendingNew = true ∧
    cexPendingOld.created_at < cexPendingNew.created_at ∧
    cexPendingOld ≠ cexPendingNew := by
  decide

/-- C4 (amended): the pending-user lookup searches by normalized email
first and only on a complete email miss by normalized mobile, considers
only rows with `authid IS NULL` and `is_pending_signup = TRUE`, and returns
at most one row — but an arbitrary matching row (the first in storage
order; the query has no `ORDER BY`), not necessarily the most recently
created one. -/
theorem findPendingUser_amended (users : List UserRow) (ne np : Option JSStr)
    (u : UserRow) (h : findPendingUser users ne np = some u) :
    u ∈ users ∧ u.is_pending_signup = true ∧ u.authid = none ∧
    ((∃ e, ne = some e ∧ sqlLowerTrim u.email = some e) ∨
     ((∀ v ∈ users, ∀ e, ne = some e → pendingByEmail e v = false) ∧
      ∃ p, np = some p ∧ normalize_phone_number u.mobile_no = some p)) := by
  have unpackE : ∀ (e : JSStr) (v : UserRow), pendingByEmail e v = true →
      sqlLowerTrim v.email = some e ∧ v.is_pending_signup = true ∧
        v.authid = none := by
    intro e v hv
    unfold pendingByEmail at hv
    simp only [Bool.and_eq_true, beq_iff_eq] at hv
    exact ⟨hv.1.1, hv.1.2, hv.2⟩
  have unpackP : ∀ (p : JSStr) (v : UserRow), pendingByPhone p v = true →
      normalize_phone_number v.mobile_no = some p ∧ v.is_pending_signup = true ∧
        v.authid = none := by
    intro p v hv
    unfold pendingByPhone at hv
    simp only [Bool.and_eq_true, beq_iff_eq] at hv
    exact ⟨hv.1.1, hv.1.2, hv.2⟩
  unfold findPendingUser at h
  cases ne with
  | none =>
    cases np with
    | none => exact Option.noConfusion h
    | some p =>
      have h2 : users.find? (pendingByPhone p) = some u := h
      have hmem := List.mem_of_find?_eq_some h2
      have hpred := List.find?_some h2
      obtain ⟨hph, hpend, hauth⟩ := unpackP p u hpred
      refine ⟨hmem, hpend, hauth, Or.inr ⟨?_, p, rfl, hph⟩⟩
      intro v _ e he
      exact Option.noConfusion he
  | some e =>
    dsimp only at h
    have h1 := h
    cases hfe : users.find? (pendingByEmail e) with
    | some w =>
      rw [hfe] at h1
      have hwu : w = u := by
        have h2 : some w = some u := h1
        injection h2
      subst hwu
      have hmem := List.mem_of_find?_eq_some hfe
      have hpred := List.find?_some hfe
      obtain ⟨hem, hpend, hauth⟩ := unpackE e w hpred
      exact ⟨hmem, hpend, hauth, Or.inl ⟨e, rfl, hem⟩⟩
    | none =>
      rw [hfe] at h1
      cases np with
      | none => exact Option.noConfusion h1
      | some p =>
        have h2 : users.find? (pendingByPhone p) = some u := h1
        have hmem := List.mem_of_find?_eq_some h2
        have hpred := List.find?_some h2
        obtain ⟨hph, hpend, hauth⟩ := unpackP p u hpred
        refine ⟨hmem, hpend, hauth, Or.inr ⟨?_, p, rfl, hph⟩⟩
        intro v hv e0 he0
        have : e0 = e := by
          injection he0.symm
        subst this
        have := List.find?_eq_none.mp hfe v hv
        exact Bool.eq_false_iff.mpr this

theorem findPendingUser_amended_witness :
    cexPendingOld ∈ [cexPendingOld, cexPendingNew] ∧
    cexPendingOld.is_pending_signup = true ∧ cexPendingOld.authid = none ∧
    ((∃ e, (some (("maria@x.ph").data) : Option JSStr) = some e ∧
        sqlLowerTrim cexPendingOld.email = some e) ∨
     ((∀ v ∈ [cexPendingOld, cexPendingNew], ∀ e,
         (some (("maria@x.ph").data) : Option JSStr) = some e →
         pendingByEmail e v = false) ∧
      ∃ p, (none : Option JSStr) = some p ∧
        normalize_phone_number cexPendingOld.mobile_no = some p)) :=
  findPendingUser_amended [cexPendingOld, cexPendingNew]
    (some (("maria@x.ph").data)) none cexPendingOld (by decide)

/-- Structural description of the join-code loop, indexed by the starting
attempt number: a successful exit at attempt `n` means candidates before it
all collided and the accepted candidate does not. -/
theorem generateJoinCodeAux_spec (codes : List JSStr) :
    ∀ (hs : List HouseholdRow) (k n : Nat) (c : JSStr),
      generateJoinCodeAux codes hs k = some (n, c) →
      k ≤ n ∧ codes.get? (n - k) = some c ∧ (∀ h ∈ hs, h.join_code ≠ c) ∧
      ∀ i, i < n - k → ∃ d, codes.get? i = some d ∧ ∃ h ∈ hs, h.join_code = d := by
  induction codes with
  | nil =>
    intro hs k n c h
    exact Option.noConfusion h
  | cons c0 rest ih =>
    intro hs k n c h
    unfold generateJoinCodeAux at h
    by_cases hcol : hs.any (fun hh => hh.join_code == c0)
    · rw [if_pos hcol] at h
      obtain ⟨hk, hget, hfresh, hcols⟩ := ih hs (k + 1) n c h
      refine ⟨by omega, ?_, hfresh, ?_⟩
      · have hnk : n - k = (n - (k + 1)) + 1 := by omega
        rw [hnk]
        simpa using hget
      · intro i hi
        cases i with
        | zero =>
          refine ⟨c0, rfl, ?_⟩
          rw [List.any_eq_true] at hcol
          obtain ⟨hh, hhmem, hhbeq⟩ := hcol
          exact ⟨hh, hhmem, by simpa using hhbeq⟩
        | succ j =>
          have hj : j < n - (k + 1) := by omega
          obtain ⟨d, hd, hcold⟩ := hcols j hj
          exact ⟨d, by simpa using hd, hcold⟩
    · rw [if_neg hcol] at h
      simp only [Option.some.injEq, Prod.mk.injEq] at h
      obtain ⟨rfl, rfl⟩ := h
      refine ⟨le_refl _, by simp, ?_, ?_⟩
      · intro hh hhmem heq
        exact hcol (List.any_eq_true.mpr ⟨hh, hhmem, by simp [heq]⟩)
      · intro i hi
        exact absurd hi (by omega)

/-- C5 (counterexample): the join-code loop is **not** bounded at about ten
attempts, and exhaustion of a bound cannot "fail loudly" because no bound
exists: with twelve colliding candidates the loop silently continues and
succeeds on the thirteenth attempt. -/
theorem joinCode_bounded_retry_cex :
    generateJoinCode cexJoinCodes cexHouseholds =
      some (13, ("ZZZZZZ").data) ∧ 10 < 13 := by
  decide

/-- C5 (amended): the join-code loop retries exactly while the candidate
collides with an existing household's join code, with **no** bound on the
number of attempts, and the accepted code is collision-free; any failure
inside the household-creation block (modelled as `blockRaise`) is rolled
back, logged and swallowed, leaving the store unchanged, so account
creation proceeds. -/
theorem joinCode_retry_amended :
    (∀ codes hs n c, generateJoinCode codes hs = some (n, c) →
      1 ≤ n ∧ codes.get? (n - 1) = some c ∧ (∀ h ∈ hs, h.join_code ≠ c) ∧
      ∀ i, i < n - 1 → ∃ d, codes.get? i = some d ∧
        ∃ h ∈ hs, h.join_code = d) ∧
    (∀ db uid hasInv, autoHouseholdCreation db uid hasInv true = db) := by
  constructor
  · intro codes hs n c h
    exact generateJoinCodeAux_spec codes hs 1 n c h
  · intro db uid hasInv
    unfold autoHouseholdCreation
    cases db.users.find? (fun u => u.id == uid) with
    | none => rfl
    | some u =>
      dsimp only
      by_cases h1 : u.role ≠ roleAmo
      · rw [if_pos h1]
      · rw [if_neg h1]
        by_cases h2 : u.household.isSome
        · rw [if_pos h2]
        · rw [if_neg h2]
          cases hasInv <;> simp

theorem joinCode_retry_amended_witness :
    1 ≤ 13 ∧ cexJoinCodes.get? 12 = some (("ZZZZZZ").data) ∧
    (∀ h ∈ cexHouseholds, h.join_code ≠ ("ZZZZZZ").data) ∧
    ∀ i, i < 12 → ∃ d, cexJoinCodes.get? i = some d ∧
      ∃ h ∈ cexHouseholds, h.join_code = d :=
  joinCode_retry_amended.1 cexJoinCodes cexHouseholds 13 (("ZZZZZZ").data)
    (by decide)

/-- C1 (counterexample): in the `link_existing_user` flow a valid token
whose contact matches no user yields NotFound (404) — but the grant does
**not** remain `new`: the flow invokes the consuming RPC before the user
lookup, so the grant's status is already `done`. -/
theorem linkExisting_consumes_cex :
    ((linkExistingUser cexLinkDB cexLinkReq).map (fun r => r.1.status) =
      some 404) ∧
    ((linkExistingUser cexLinkDB cexLinkReq).map
       (fun r => r.2.staff_invite.map (fun i => i.status)) =
      some [statusDone]) ∧
    statusDone ≠ statusNew := by
  decide

/-- C1 (amended): when `link_existing_user = true` with a valid (`new`)
invitation token but the supplied contact matches no user row, the request
fails with NotFound (404) and no user row changes — but the grant has
already been consumed: the link flow calls `consume_invite_token` (not the
read-only validate) before the user lookup, so the grant's status is `done`
afterwards (the grant row itself still exists). -/
theorem linkExisting_notfound_grant_consumed (db : DB) (req : SignupReq)
    (t : Nat) (inv : InviteRow)
    (ht : req.invite_token = some t) (hl : req.link_existing_user = true)
    (hne : strTruthy (normalizeEmail req.email) = true)
    (hfind : db.staff_invite.find? (fun i => i.id == t) = some inv)
    (hnew : inv.status = statusNew)
    (hnouser : ∀ u ∈ db.users, (u.email == normalizeEmail req.email) = false) :
    ∃ db2, linkExistingUser db req = some (⟨404, none⟩, db2) ∧
      db2.users = db.users ∧
      (∀ i ∈ db2.staff_invite, i.id = t → i.status = statusDone) ∧
      ∃ j ∈ db2.staff_invite, j.id = t := by
  have hinvid : inv.id = t := by
    have := List.find?_some hfind
    simpa using this
  have hcons : consume_invite_token db t =
      (some inv, { db with staff_invite := db.staff_invite.map (fun j =>
        if j.id = t then { j with status := statusDone } else j) }) := by
    unfold consume_invite_token
    rw [hfind]
    dsimp only
    rw [if_pos hnew]
  have hfilter : db.users.filter
      (fun u => u.email == normalizeEmail req.email) = [] := by
    rw [List.filter_eq_nil_iff]
    intro u hu
    rw [hnouser u hu]
    simp
  refine ⟨{ db with staff_invite := db.staff_invite.map (fun j =>
      if j.id = t then { j with status := statusDone } else j) }, ?_, rfl, ?_, ?_⟩
  · unfold linkExistingUser
    rw [ht]
    dsimp only
    rw [if_neg (not_not_intro hl), if_neg (not_not_intro (Or.inl hne)), hcons]
    dsimp only
    rw [if_pos hne, hfilter]
  · intro i hi hit
    rw [List.mem_map] at hi
    obtain ⟨j, hj, rfl⟩ := hi
    by_cases hjt : j.id = t
    · simp [hjt]
    · rw [if_neg hjt] at hit
      exact absurd hit hjt
  · refine ⟨if inv.id = t then { inv with status := statusDone } else inv,
      List.mem_map.mpr ⟨inv, List.mem_of_find?_eq_some hfind, rfl⟩, ?_⟩
    rw [if_pos hinvid]
    exact hinvid

theorem linkExisting_notfound_grant_consumed_witness :
    ∃ db2, linkExistingUser cexLinkDB cexLinkReq = some (⟨404, none⟩, db2) ∧
      db2.users = cexLinkDB.users ∧
      (∀ i ∈ db2.staff_invite, i.id = 1 → i.status = statusDone) ∧
      ∃ j ∈ db2.staff_invite, j.id = 1 :=
  linkExisting_notfound_grant_consumed cexLinkDB cexLinkReq 1
    ⟨1, none, some (("+639000000001").data), some (("cook").data), some 5,
      statusNew, none, 0⟩
    (by decide) (by decide) (by decide) (by decide) (by decide) (by decide)

theorem sameCore_refl (u : UserRow) : sameCore u u :=
  ⟨rfl, rfl, rfl, rfl, rfl, rfl⟩

/-- Any row found by the pending-user lookup is a row of the table. -/
theorem findPendingUser_mem {us : List UserRow} {ne np : Option JSStr}
    {u : UserRow} (h : findPendingUser us ne np = some u) : u ∈ us := by
  unfold findPendingUser at h
  cases ne with
  | none =>
    cases np with
    | none => exact Option.noConfusion h
    | some p => exact List.mem_of_find?_eq_some h
  | some e =>
    dsimp only at h
    cases hfe : us.find? (pendingByEmail e) with
    | some w =>
      rw [hfe] at h
      have h2 : some w = some u := h
      have hwu : w = u := by injection h2
      subst hwu
      exact List.mem_of_find?_eq_some hfe
    | none =>
      rw [hfe] at h
      cases np with
      | none => exact Option.noConfusion h
      | some p => exact List.mem_of_find?_eq_some h

/-- An id-targeted update whose payload preserves the core fields preserves
them for every row. -/
theorem updateUserById_pres (us : List UserRow) (i : Nat)
    (f : UserRow → UserRow) (hf : ∀ v, sameCore v (f v)) {u : UserRow}
    (hu : u ∈ us) : ∃ w ∈ updateUserById us i f, sameCore u w := by
  refine ⟨if u.id = i then f u else u, List.mem_map.mpr ⟨u, hu, rfl⟩, ?_⟩
  by_cases h : u.id = i
  · rw [if_pos h]
    exact hf u
  · rw [if_neg h]
    exact sameCore_refl u

/-- Automatic household creation never changes a row's core fields (it only
sets `household` and inserts elsewhere). -/
theorem autoHousehold_pres (db : DB) (uid : Nat) (hasInv raise : Bool)
    {u : UserRow} (hu : u ∈ db.users) :
    ∃ w ∈ (autoHouseholdCreation db uid hasInv raise).users, sameCore u w := by
  unfold autoHouseholdCreation
  cases db.users.find? (fun v => v.id == uid) with
  | none => exact ⟨u, hu, sameCore_refl u⟩
  | some u0 =>
    dsimp only
    by_cases h1 : u0.role ≠ roleAmo
    · rw [if_pos h1]
      exact ⟨u, hu, sameCore_refl u⟩
    · rw [if_neg h1]
      by_cases h2 : u0.household.isSome
      · rw [if_pos h2]
        exact ⟨u, hu, sameCore_refl u⟩
      · rw [if_neg h2]
        by_cases h3 : hasInv
        · rw [if_pos h3]
          exact ⟨u, hu, sameCore_refl u⟩
        · rw [if_neg h3]
          by_cases h4 : raise
          · rw [if_pos h4]
            exact ⟨u, hu, sameCore_refl u⟩
          · rw [if_neg h4]
            cases generateJoinCode db.join_codes db.households with
            | none => exact ⟨u, hu, sameCore_refl u⟩
            | some pr =>
              cases pr with
              | mk n code =>
                dsimp only
                exact updateUserById_pres db.users u0.id
                  (fun v => { v with household := some (freshHouseholdId db) })
                  (fun v => ⟨rfl, rfl, rfl, rfl, rfl, rfl⟩) hu

/-- The trigger's staff-invite update section never changes a row's core
fields (it only sets `household` and touches other tables). -/
theorem staffInvSection_pres (db : DB) (nu : AuthNew) (inv : InviteRow)
    (raise : Bool) {u : UserRow} (hu : u ∈ db.users) :
    ∃ w ∈ (staffInviteUpdateSection db nu inv raise).users, sameCore u w := by
  unfold staffInviteUpdateSection
  by_cases hr : raise
  · rw [if_pos hr]
    exact ⟨u, hu, sameCore_refl u⟩
  · rw [if_neg hr]
    cases db.users.find? (fun v => v.id == nu.id) with
    | none => exact ⟨u, hu, sameCore_refl u⟩
    | some ur =>
      dsimp only
      cases inv.household_id with
      | none => exact ⟨u, hu, sameCore_refl u⟩
      | some hh =>
        dsimp only
        by_cases hH : ur.household = none
        · rw [if_pos hH]
          exact updateUserById_pres db.users ur.id
            (fun v => { v with household := some hh })
            (fun v => ⟨rfl, rfl, rfl, rfl, rfl, rfl⟩) hu
        · rw [if_neg hH]
          exact ⟨u, hu, sameCore_refl u⟩

theorem opt_refill (o : Option JSStr) :
    (match o with | some b => some b | none => o) = o := by
  cases o <;> rfl

/-- The pending row survives the (rolled-back) migration handler with its
snapshotted email and mobile in place. -/
theorem migrationRestore_keeps_pending (db : DB) (pend : UserRow)
    (hmem : pend ∈ db.users) :
    ∃ r ∈ (migrationRestore db pend).users,
      r.id = pend.id ∧ r.authid = pend.authid ∧ r.email = pend.email ∧
      r.mobile_no = pend.mobile_no ∧
      r.is_pending_signup = pend.is_pending_signup := by
  unfold migrationRestore
  dsimp only
  refine ⟨_, List.mem_map.mpr ⟨pend, hmem, rfl⟩, ?_⟩
  rw [if_pos rfl]
  exact ⟨rfl, rfl, opt_refill pend.email, opt_refill pend.mobile_no, rfl⟩

/-- Every row of the restored table shares its id with a row of the
original table. -/
theorem migrationRestore_ids (db : DB) (pend : UserRow) {w : UserRow}
    (hw : w ∈ (migrationRestore db pend).users) :
    ∃ v ∈ db.users, w.id = v.id := by
  unfold migrationRestore at hw
  dsimp only at hw
  obtain ⟨v, hv, rfl⟩ := List.mem_map.mp hw
  refine ⟨v, hv, ?_⟩
  by_cases h : v.id = pend.id
  · rw [if_pos h]
  · rw [if_neg h]

theorem sameCore_trans {u w1 w2 : UserRow} (h1 : sameCore u w1)
    (h2 : sameCore w1 w2) : sameCore u w2 := by
  obtain ⟨a1, b1, c1, d1, e1, f1⟩ := h1
  obtain ⟨a2, b2, c2, d2, e2, f2⟩ := h2
  exact ⟨a2.trans a1, b2.trans b1, c2.trans c1, d2.trans d1, e2.trans e1,
    f2.trans f1⟩

/-- C7 (confirmed): an exception anywhere in the reconciliation merge is
caught by the block handler — the subtransaction's changes are rolled
back, the snapshotted email and mobile are written back onto the pending
row (best-effort), `pending_user_found` is cleared, and the trigger
continues with plain creation: the result still contains the pending row
with its original contacts **and** a canonical row for the new auth user
(bound identity, not pending, the resolved role), so the signup never
aborts. -/
theorem migration_failure_degrades (db : DB) (nu : AuthNew) (pend : UserRow)
    (hhRaise invRaise : Bool)
    (hfound : findPendingUser db.users (trigNormEmail nu) (trigNormPhone nu) =
      some pend)
    (hfresh : ∀ u ∈ db.users, u.id ≠ nu.id) :
    (∃ r ∈ (handleNewUser db nu true hhRaise invRaise).users,
        r.id = pend.id ∧ r.email = pend.email ∧ r.mobile_no = pend.mobile_no ∧
        r.authid = pend.authid ∧
        r.is_pending_signup = pend.is_pending_signup) ∧
    (∃ w ∈ (handleNewUser db nu true hhRaise invRaise).users,
        w.id = nu.id ∧ w.authid = some nu.id ∧ w.is_pending_signup = false ∧
        w.role = trigRole db nu) := by
  have hpmem : pend ∈ db.users := findPendingUser_mem hfound
  have hnoid : ∀ v ∈ (migrationRestore db pend).users, v.id ≠ nu.id := by
    intro v hv
    obtain ⟨o, ho, heq⟩ := migrationRestore_ids db pend hv
    rw [heq]
    exact hfresh o ho
  have hcnot : ¬ ((migrationRestore db pend).users.any
      (fun u => u.id == nu.id) = true) := by
    intro hc
    rw [List.any_eq_true] at hc
    obtain ⟨v, hv, hb⟩ := hc
    exact hnoid v hv (by simpa using hb)
  have hplain : plainCreation (migrationRestore db pend) nu (trigUserPhone nu)
      (trigRole db nu) =
      { migrationRestore db pend with
        users := (migrationRestore db pend).users ++
          [⟨nu.id, some nu.id, nu.email, trigUserPhone nu, trigRole db nu,
            none, none, some (db.user_colors.head?.getD defaultColor), false,
            db.now⟩] } := by
    unfold plainCreation
    rw [if_neg hcnot]
    rfl
  have hred : handleNewUser db nu true hhRaise invRaise =
      (match trigInvite db nu with
       | some i => staffInviteUpdateSection (autoHouseholdCreation
           (plainCreation (migrationRestore db pend) nu (trigUserPhone nu)
             (trigRole db nu)) nu.id (trigInvite db nu).isSome hhRaise)
           nu i invRaise
       | none => autoHouseholdCreation
           (plainCreation (migrationRestore db pend) nu (trigUserPhone nu)
             (trigRole db nu)) nu.id (trigInvite db nu).isSome hhRaise) := by
    unfold handleNewUser
    rw [hfound]
    rfl
  have main : ∀ {u : UserRow},
      u ∈ (plainCreation (migrationRestore db pend) nu (trigUserPhone nu)
        (trigRole db nu)).users →
      ∃ w ∈ (handleNewUser db nu true hhRaise invRaise).users, sameCore u w := by
    intro u hu
    rw [hred]
    cases hI : trigInvite db nu with
    | none =>
      obtain ⟨w1, hw1, hc1⟩ := autoHousehold_pres
        (plainCreation (migrationRestore db pend) nu (trigUserPhone nu)
          (trigRole db nu)) nu.id (trigInvite db nu).isSome hhRaise hu
      rw [hI] at hw1
      exact ⟨w1, hw1, hc1⟩
    | some i =>
      obtain ⟨w1, hw1, hc1⟩ := autoHousehold_pres
        (plainCreation (migrationRestore db pend) nu (trigUserPhone nu)
          (trigRole db nu)) nu.id (trigInvite db nu).isSome hhRaise hu
      rw [hI] at hw1
      obtain ⟨w2, hw2, hc2⟩ := staffInvSection_pres _ nu i invRaise hw1
      exact ⟨w2, hw2, sameCore_trans hc1 hc2⟩
  obtain ⟨r0, hr0, hid0, hauth0, hem0, hmob0, hpend0⟩ :=
    migrationRestore_keeps_pending db pend hpmem
  constructor
  · have hr0' : r0 ∈ (plainCreation (migrationRestore db pend) nu
        (trigUserPhone nu) (trigRole db nu)).users := by
      rw [hplain]
      exact List.mem_append_left _ hr0
    obtain ⟨w, hw, hc⟩ := main hr0'
    exact ⟨w, hw, hc.1.trans hid0, hc.2.2.1.trans hem0, hc.2.2.2.1.trans hmob0,
      hc.2.1.trans hauth0, hc.2.2.2.2.1.trans hpend0⟩
  · have hwrow : (⟨nu.id, some nu.id, nu.email, trigUserPhone nu,
        trigRole db nu, none, none,
        some (db.user_colors.head?.getD defaultColor), false, db.now⟩ :
        UserRow) ∈ (plainCreation (migrationRestore db pend) nu
        (trigUserPhone nu) (trigRole db nu)).users := by
      rw [hplain]
      exact List.mem_append_right _ (by simp)
    obtain ⟨w, hw, hc⟩ := main hwrow
    exact ⟨w, hw, hc.1, hc.2.1, hc.2.2.2.2.1, hc.2.2.2.2.2⟩

/-- C6 (counterexample): two invite-token password signups that refute the
claim's unconditional conclusions.  (a) A grant carrying a pending
back-reference to a placeholder without membership rows: the signup ends
with role `kasambahay`, the grant's household and a `done` grant — but
**no** membership row at all, because the flow skips the membership insert
whenever the grant has a pending back-reference and reconciliation only
copies rows the placeholder already had.  (b) A signup that reuses the very
mobile the invite was addressed to: the trigger finds the grant by phone
and stamps the fresh user's id onto it (part_000 line 682), the flow's
re-fetch (lines 661–671) then mistakes the brand-new user for a pending
placeholder, and reconciliation (lines 750, 756) deletes the just-created
membership rows and profile row — 201 and a `done` grant, yet no user row
at all. -/
theorem inviteSignup_membership_missing_cex :
    ((passwordSignup cexC6DB cexC6Req false false false).1 =
      ⟨201, some roleKasambahay⟩ ∧
    (∃ u ∈ (passwordSignup cexC6DB cexC6Req false false false).2.users,
        u.authid = some 8 ∧ u.role = roleKasambahay ∧ u.household = some 5) ∧
    (∀ i ∈ (passwordSignup cexC6DB cexC6Req false false false).2.staff_invite,
        i.status = statusDone) ∧
    (passwordSignup cexC6DB cexC6Req false false false).2.household_members =
      []) ∧
    ((passwordSignup demoC6DB cexC6SelfReq false false false).1 =
      ⟨201, some roleKasambahay⟩ ∧
    (∀ i ∈ (passwordSignup demoC6DB cexC6SelfReq false false
        false).2.staff_invite, i.status = statusDone) ∧
    (passwordSignup demoC6DB cexC6SelfReq false false false).2.users = [] ∧
    (passwordSignup demoC6DB cexC6SelfReq false false
      false).2.household_members = []) := by
  decide

theorem find?_append_right_of_all_false {α : Type} (p : α → Bool)
    (us : List α) (h : ∀ u ∈ us, p u = false) (vs : List α) :
    (us ++ vs).find? p = vs.find? p := by
  rw [List.find?_append]
  have hnone : us.find? p = none :=
    List.find?_eq_none.mpr (fun x hx => by rw [h x hx]; simp)
  rw [hnone]
  rfl

theorem updateUserById_append (us vs : List UserRow) (i : Nat)
    (f : UserRow → UserRow) :
    updateUserById (us ++ vs) i f = updateUserById us i f ++ updateUserById vs i f :=
  List.map_append _ _ _

theorem updateUserById_of_ne (us : List UserRow) (i : Nat)
    (f : UserRow → UserRow) (h : ∀ u ∈ us, u.id ≠ i) :
    updateUserById us i f = us := by
  unfold updateUserById
  have hcongr := List.map_congr_left (l := us)
    (f := fun u => if u.id = i then f u else u) (g := id)
    (fun a ha => by dsimp only; rw [if_neg (h a ha)]; rfl)
  rw [hcongr, List.map_id]

theorem updateUserById_single (w : UserRow) (f : UserRow → UserRow) :
    updateUserById [w] w.id f = [f w] := by
  unfold updateUserById
  rw [List.map_cons]
  rw [if_pos rfl]
  rfl

/-- Validation facts: a successful read-only validate means the grant is in
the table under that token and still `new`. -/
theorem validate_invite_facts {invites : List InviteRow} {t : Nat}
    {inv : InviteRow} (h : validate_invite_token invites t = some inv) :
    invites.find? (fun i => i.id == t) = some inv ∧ inv.status = statusNew := by
  unfold validate_invite_token at h
  cases hf : invites.find? (fun i => i.id == t) with
  | none =>
    rw [hf] at h
    exact Option.noConfusion h
  | some i0 =>
    rw [hf] at h
    dsimp only at h
    by_cases hs : i0.status = statusNew
    · rw [if_pos hs] at h
      have heq : i0 = inv := by injection h
      subst heq
      exact ⟨rfl, hs⟩
    · rw [if_neg hs] at h
      exact Option.noConfusion h

/-- Household creation is skipped entirely when the created user's role is
not `amo`. -/
theorem autoHousehold_skip_role (db : DB) (uid : Nat) (hasInv raise : Bool)
    (u0 : UserRow) (hfind : db.users.find? (fun v => v.id == uid) = some u0)
    (hrole : u0.role ≠ roleAmo) :
    autoHouseholdCreation db uid hasInv raise = db := by
  unfold autoHouseholdCreation
  rw [hfind]
  dsimp only
  rw [if_pos hrole]

/-- The trigger on a store where neither the contact-based invite lookup
nor the pending lookup matches, for a fresh non-`amo` user: plain creation
appends the canonical row and everything else is skipped. -/
theorem trigger_plain_reduction (db1 : DB) (nu : AuthNew)
    (hpend : findPendingUser db1.users (trigNormEmail nu) (trigNormPhone nu) =
      none)
    (hinv : triggerInviteLookup db1.staff_invite (trigNormPhone nu)
      (trigNormEmail nu) = none)
    (hany : (db1.users.any (fun u => u.id == nu.id)) = false)
    (hrole : nu.meta_role.getD roleAmo ≠ roleAmo) :
    handleNewUser db1 nu false false false =
      { db1 with users := db1.users ++ [⟨nu.id, some nu.id, nu.email,
          trigUserPhone nu, nu.meta_role.getD roleAmo, none, none,
          some (db1.user_colors.head?.getD defaultColor), false, db1.now⟩] } := by
  have htrig : trigInvite db1 nu = none := hinv
  have hrole2 : trigRole db1 nu = nu.meta_role.getD roleAmo := by
    unfold trigRole
    rw [htrig]
  have hcnot : ¬ (db1.users.any (fun u => u.id == nu.id) = true) := by
    rw [hany]
    exact Bool.false_ne_true
  have hplain : plainCreation db1 nu (trigUserPhone nu) (trigRole db1 nu) =
      { db1 with users := db1.users ++ [⟨nu.id, some nu.id, nu.email,
          trigUserPhone nu, nu.meta_role.getD roleAmo, none, none,
          some (db1.user_colors.head?.getD defaultColor), false, db1.now⟩] } := by
    unfold plainCreation
    rw [if_neg hcnot, hrole2]
  have hallfalse : ∀ u ∈ db1.users, (fun v => v.id == nu.id) u = false := by
    intro u hu
    by_cases hb : u.id = nu.id
    · exact absurd (List.any_eq_true.mpr ⟨u, hu, by simpa using hb⟩) hcnot
    · simpa using hb
  have hfind2 : List.find? (fun v : UserRow => v.id == nu.id)
      (db1.users ++ [(⟨nu.id, some nu.id, nu.email,
        trigUserPhone nu, nu.meta_role.getD roleAmo, none, none,
        some (db1.user_colors.head?.getD defaultColor), false,
        db1.now⟩ : UserRow)]) =
      some (⟨nu.id, some nu.id, nu.email, trigUserPhone nu,
        nu.meta_role.getD roleAmo, none, none,
        some (db1.user_colors.head?.getD defaultColor), false,
        db1.now⟩ : UserRow) := by
    rw [find?_append_right_of_all_false _ db1.users hallfalse _]
    simp [List.find?_cons]
  unfold handleNewUser
  rw [hpend]
  dsimp only
  rw [htrig]
  dsimp only
  rw [hplain]
  exact autoHousehold_skip_role _ nu.id _ false _ hfind2 hrole

/-- The password flow's staff-invite section on a store whose last user row
is the fresh signup (no other row carrying its auth id or id), for a grant
with a household, no pending back-reference and `new` status: the user row
gets the grant's household, specific role and the `kasambahay` role, the
membership row is inserted, and the grant is marked `done`. -/
theorem edgeStaffInviteSection_reduction (db3 : DB) (uid : Nat)
    (inv : InviteRow) (us0 : List UserRow) (w : UserRow) (H : Nat)
    (husers : db3.users = us0 ++ [w])
    (hleftid : ∀ u ∈ us0, u.id ≠ w.id)
    (hleftauth : ∀ u ∈ us0, (fun v : UserRow => v.authid == some uid) u = false)
    (hwauth : (w.authid == some uid) = true)
    (hnopend : inv.user_id = none)
    (hrefetch : db3.staff_invite.find? (fun i => i.id == inv.id) = some inv)
    (hH : inv.household_id = some H)
    (hmem : memberExists db3.household_members H w.id = false)
    (hstat : inv.status = statusNew) :
    edgeStaffInviteSection db3 uid inv =
      { db3 with
        users := us0 ++ [grantApply inv H w],
        household_members := db3.household_members ++ [⟨H, w.id⟩],
        staff_invite := db3.staff_invite.map (fun i =>
          if i.id = inv.id then { i with status := statusDone } else i) } := by
  have hfindw : db3.users.find? (fun v : UserRow => v.authid == some uid) =
      some w := by
    rw [husers, find?_append_right_of_all_false _ us0 hleftauth]
    simp [List.find?_cons, hwauth]
  have hupd : updateUserById db3.users w.id (fun u =>
      { u with household := some H,
               specific_role := optTruthy inv.role,
               role := roleKasambahay }) =
      us0 ++ [grantApply inv H w] := by
    rw [husers, updateUserById_append, updateUserById_of_ne us0 _ _ hleftid,
      updateUserById_single]
    rfl
  have hstatne : inv.status ≠ statusDone := by
    rw [hstat]
    decide
  unfold edgeStaffInviteSection
  rw [hnopend, hH]
  dsimp only
  rw [hrefetch]
  dsimp only
  rw [hnopend, hfindw]
  dsimp only
  rw [hupd]
  rw [if_pos hstatne]
  simp only [hmem]
  rw [if_pos (show ¬ false = true ∧ True by decide)]

theorem migration_failure_degrades_witness :
    (∃ r ∈ (handleNewUser cexMigDB cexMigNew true false false).users,
        r.id = cexPendingOld.id ∧ r.email = cexPendingOld.email ∧
        r.mobile_no = cexPendingOld.mobile_no ∧
        r.authid = cexPendingOld.authid ∧
        r.is_pending_signup = cexPendingOld.is_pending_signup) ∧
    (∃ w ∈ (handleNewUser cexMigDB cexMigNew true false false).users,
        w.id = cexMigNew.id ∧ w.authid = some cexMigNew.id ∧
        w.is_pending_signup = false ∧
        w.role = trigRole cexMigDB cexMigNew) :=
  migration_failure_degrades cexMigDB cexMigNew cexPendingOld false false
    (by decide) (by decide)

/-- C6 (amended): a password signup with a valid `new` invite token whose
grant carries a household and **no pending back-reference** — the grant's
`user_id` is null (`hnopend`) and the trigger's own contact-based lookup
does not find the grant, i.e. the signup's normalized contact differs from
the invite's (`htriginv`) — on a store where the fresh identity is
genuinely fresh and the trigger's pending lookup misses: the response is
201 with role `kasambahay`; the created profile holds that role and the
grant's household; the membership row is inserted; and the grant ends
`done`.  Outside these side conditions the conclusions genuinely fail —
with a pending back-reference the membership insert is skipped, and a
signup reusing the invite's own contact gets its fresh profile deleted by
self-reconciliation — see the counterexample. -/
theorem inviteSignup_amended (db : DB) (req : SignupReq) (inv : InviteRow)
    (H : Nat)
    (hpw : strTruthy req.password = true)
    (hfn : strTruthy req.full_name = true)
    (hcontact : strTruthy (pwNormM req) = true ∨ strTruthy (pwNormE req) = true)
    (hauth : db.auth_users.any (fun a => a.email == pwAuthEmail req) = false)
    (hinv : pwInvite db req = some inv)
    (hrefetch : db.staff_invite.find? (fun i => i.id == inv.id) = some inv)
    (hstat : inv.status = statusNew)
    (hH : inv.household_id = some H)
    (hnopend : inv.user_id = none)
    (hfresh : ∀ u ∈ db.users, u.id ≠ freshAuthId db ∧
      u.authid ≠ some (freshAuthId db))
    (htrigpend : findPendingUser db.users (trigNormEmail (pwAuthNew db req))
      (trigNormPhone (pwAuthNew db req)) = none)
    (htriginv : triggerInviteLookup db.staff_invite
      (trigNormPhone (pwAuthNew db req)) (trigNormEmail (pwAuthNew db req)) =
      none)
    (hmem : memberExists db.household_members H (freshAuthId db) = false) :
    (passwordSignup db req false false false).1 = ⟨201, some roleKasambahay⟩ ∧
    (∃ u ∈ (passwordSignup db req false false false).2.users,
        u.authid = some (freshAuthId db) ∧ u.role = roleKasambahay ∧
        u.household = some H) ∧
    (⟨H, freshAuthId db⟩ : MemberRow) ∈
      (passwordSignup db req false false false).2.household_members ∧
    (∀ i ∈ (passwordSignup db req false false false).2.staff_invite,
        i.id = inv.id → i.status = statusDone) := by
  have hrole : pwRole db req = roleKasambahay := by
    unfold pwRole
    rw [hinv]
    rfl
  have hrole3 : (pwAuthNew db req).meta_role.getD roleAmo ≠ roleAmo := by
    have hg : (pwAuthNew db req).meta_role.getD roleAmo = pwRole db req := rfl
    rw [hg, hrole]
    decide
  have hfa : ∀ u ∈ db.users,
      (fun v : UserRow => v.authid == some (freshAuthId db)) u = false :=
    fun u hu => beq_eq_false_iff_ne.mpr (hfresh u hu).2
  have hany : db.users.any (fun u => u.id == (pwAuthNew db req).id) = false := by
    rw [List.any_eq_false]
    intro u hu
    have hf : (u.id == (pwAuthNew db req).id) = false :=
      beq_eq_false_iff_ne.mpr (hfresh u hu).1
    rw [hf]
    exact Bool.false_ne_true
  have htrigred : handleNewUser
      { db with auth_users := db.auth_users ++
          [⟨freshAuthId db, pwAuthEmail req⟩] }
      (pwAuthNew db req) false false false =
      { db with
        auth_users := db.auth_users ++ [⟨freshAuthId db, pwAuthEmail req⟩],
        users := db.users ++ [pwTrigRow db req] } :=
    trigger_plain_reduction _ _ htrigpend htriginv hany hrole3
  have hfind3 : (db.users ++ [pwTrigRow db req]).find?
      (fun u => u.authid == some (freshAuthId db)) = some (pwTrigRow db req) := by
    rw [find?_append_right_of_all_false _ db.users hfa]
    simp [List.find?_cons, pwTrigRow]
  have hids : ∀ u ∈ db.users, u.id ≠ (pwTrigRow db req).id :=
    fun u hu => (hfresh u hu).1
  have hupd3 : updateUserById (db.users ++ [pwTrigRow db req])
      (pwTrigRow db req).id (fun u =>
      { u with
        mobile_no := (match jsOr (pwNormM req) req.mobile_no with
                      | some v => some v
                      | none => u.mobile_no),
        role := pwRole db req,
        email := jsOr (pwNormE req) u.email }) =
      db.users ++ [pwProfRow db req] := by
    rw [updateUserById_append, updateUserById_of_ne db.users _ _ hids,
      updateUserById_single]
    rfl
  have hprof : pwProfileUpsert
      { db with
        auth_users := db.auth_users ++ [⟨freshAuthId db, pwAuthEmail req⟩],
        users := db.users ++ [pwTrigRow db req] }
      (freshAuthId db) req (pwRole db req) =
      { db with
        auth_users := db.auth_users ++ [⟨freshAuthId db, pwAuthEmail req⟩],
        users := db.users ++ [pwProfRow db req] } := by
    unfold pwProfileUpsert
    dsimp only
    rw [hfind3]
    dsimp only
    rw [hupd3]
  have hids2 : ∀ u ∈ db.users, u.id ≠ (pwProfRow db req).id :=
    fun u hu => (hfresh u hu).1
  have hwauth : ((pwProfRow db req).authid == some (freshAuthId db)) = true := by
    simp [pwProfRow, pwTrigRow]
  have hstaff := edgeStaffInviteSection_reduction
      { db with
        auth_users := db.auth_users ++ [⟨freshAuthId db, pwAuthEmail req⟩],
        users := db.users ++ [pwProfRow db req] }
      (freshAuthId db) inv db.users (pwProfRow db req) H
      rfl hids2 hfa hwauth hnopend hrefetch hH hmem hstat
  have hmain : passwordSignup db req false false false =
      (⟨201, some (pwRole db req)⟩,
        { db with
          auth_users := db.auth_users ++ [⟨freshAuthId db, pwAuthEmail req⟩],
          users := db.users ++ [grantApply inv H (pwProfRow db req)],
          household_members := db.household_members ++ [⟨H, freshAuthId db⟩],
          staff_invite := db.staff_invite.map (fun i =>
            if i.id = inv.id then { i with status := statusDone } else i) }) := by
    unfold passwordSignup
    rw [if_neg (not_not_intro ⟨hpw, hfn⟩)]
    rw [if_neg (not_not_intro hcontact)]
    rw [if_neg (show ¬ db.auth_users.any
      (fun a => a.email == pwAuthEmail req) = true by
        rw [hauth]; exact Bool.false_ne_true)]
    dsimp only
    rw [htrigred, hprof, hinv]
    dsimp only
    rw [hstaff]
    rfl
  refine ⟨?_, ?_, ?_, ?_⟩
  · rw [hmain]
    dsimp only
    rw [hrole]
  · refine ⟨grantApply inv H (pwProfRow db req), ?_, rfl, rfl, rfl⟩
    rw [hmain]
    dsimp only
    exact List.mem_append_right _ (List.mem_cons_self _ _)
  · rw [hmain]
    dsimp only
    exact List.mem_append_right _ (List.mem_cons_self _ _)
  · rw [hmain]
    dsimp only
    intro i hi hid
    rcases List.mem_map.mp hi with ⟨j, hj, hji⟩
    by_cases h : j.id = inv.id
    · rw [← hji]
      rw [if_pos h]
    · rw [← hji] at hid
      rw [if_neg h] at hid
      exact absurd hid h

theorem inviteSignup_amended_witness :
    (passwordSignup demoC6DB cexC6Req false false false).1 =
      ⟨201, some roleKasambahay⟩ ∧
    (∃ u ∈ (passwordSignup demoC6DB cexC6Req false false false).2.users,
        u.authid = some (freshAuthId demoC6DB) ∧ u.role = roleKasambahay ∧
        u.household = some 5) ∧
    (⟨5, freshAuthId demoC6DB⟩ : MemberRow) ∈
      (passwordSignup demoC6DB cexC6Req false false false).2.household_members ∧
    (∀ i ∈ (passwordSignup demoC6DB cexC6Req false false false).2.staff_invite,
        i.id = demoC6Inv.id → i.status = statusDone) :=
  inviteSignup_amended demoC6DB cexC6Req demoC6Inv 5 (by decide) (by decide)
    (by decide) (by decide) (by decide) (by decide) (by decide) (by decide)
    (by decide) (by decide) (by decide) (by decide) (by decide)

end Domo

